import Mathlib

/-!
Verification development for the ACME certificate-issuance core.

The embedding covers the three source modules:
* `utils/crypto.ts` (the crypto utilities module bundled with the
  `CryptoKeyUtils` sources, exporting `KeyPairAlgorithm`,
  `getAlgorithmProperties`, `generateKeyPair`, `importHmacKey`):
  the key algorithm registry and the key pair provider;
* `CryptoKeyUtils/importKeyPairFromPemPrivateKey.ts`: the PEM private-key
  importer and its public-key derivation;
* `AcmeWorkflows.ts`: the `requestCertificate` workflow.

The platform `crypto.subtle` provider is modelled by a `SubtleCrypto`
structure: rejection behaviour is left abstract (a field of the model),
while a successful import/generation yields a key whose recorded
algorithm, extractability and usages are exactly the arguments the code
passed, which is what the Web Crypto API guarantees.  The asynchronous
workflow is modelled by a deterministic interpreter that threads an
explicit environment (one field per collaborator call site) and records
the ordered trace of collaborator interactions; `Promise.all` fan-outs
are interpreted sequentially, which preserves their all-or-nothing
semantics and the group-boundary ordering that `await Promise.all`
imposes in the source.
-/

namespace AcmeSpec

/-! ### Key algorithm registry (utils/crypto.ts) -/

/-- The `KeyPairAlgorithm` union type: `"ec" | "rsa" | "rsa-4096"`. -/
inductive KeyPairAlgorithm where
  | ec
  | rsa
  | rsa4096
deriving DecidableEq, Repr

/-- Algorithm parameter records passed to the Web Crypto API.  Fields that a
given record does not set in the source are `none`.  `publicExponent` is the
byte array (`Uint8Array`) from the source, most significant byte first. -/
structure AlgorithmProperties where
  name : String
  namedCurve : Option String := none
  modulusLength : Option Nat := none
  publicExponent : Option (List Nat) := none
  hash : Option String := none
deriving DecidableEq, Repr

/-- The registry `getAlgorithmProperties` from `utils/crypto.ts`. -/
def getAlgorithmProperties : KeyPairAlgorithm → AlgorithmProperties
  | .ec =>
    { name := "ECDSA", namedCurve := some "P-256" }
  | .rsa =>
    { name := "RSASSA-PKCS1-v1_5"
      modulusLength := some 2048
      publicExponent := some [0x01, 0x00, 0x01]
      hash := some "SHA-256" }
  | .rsa4096 =>
    { name := "RSASSA-PKCS1-v1_5"
      modulusLength := some 4096
      publicExponent := some [0x01, 0x00, 0x01]
      hash := some "SHA-256" }

/-- Value of a big-endian byte list, used to read the `publicExponent`
byte array as a number. -/
def bytesBE (bs : List Nat) : Nat :=
  bs.foldl (fun acc b => acc * 256 + b) 0

/-! ### Web Crypto provider model -/

/-- Key usages relevant to this code base. -/
inductive KeyUsage where
  | sign
  | verify
deriving DecidableEq, Repr

/-- The `type` attribute of a Web Crypto key. -/
inductive KeyType where
  | pub
  | priv
  | secret
deriving DecidableEq, Repr

/-- A JSON Web Key, split into the members the code manipulates: the private
component `d`, the `key_ops` list, and the remaining (public) members kept
as an association list. -/
structure Jwk where
  kty : String
  d : Option String := none
  key_ops : List String := []
  pubMembers : List (String × String) := []
deriving DecidableEq, Repr

/-- Key material backing a Web Crypto key in the model. -/
inductive KeyMaterial where
  | pkcs8Bytes (bytes : List Nat)
  | jwkMaterial (j : Jwk)
  | rawBytes (bytes : List Nat)
  | generated (algName : String) (id : Nat)
deriving DecidableEq, Repr

/-- Errors surfaced by the key utilities. -/
inductive CryptoError where
  | parseError (msg : String)
  | providerError (msg : String)
deriving DecidableEq, Repr

/-- Import formats used by the code (`"pkcs8"`, `"jwk"`, `"raw"`). -/
inductive ImportFormat where
  | pkcs8
  | jwk
  | raw
deriving DecidableEq, Repr

/-- A Web Crypto key: its type, the algorithm record it was created under,
its extractability, its usages and its material. -/
structure CryptoKey where
  keyType : KeyType
  algorithm : AlgorithmProperties
  extractable : Bool
  usages : List KeyUsage
  material : KeyMaterial
deriving DecidableEq, Repr

/-- A `CryptoKeyPair`. -/
structure CryptoKeyPair where
  privateKey : CryptoKey
  publicKey : CryptoKey
deriving DecidableEq, Repr

/-- The abstract part of the platform provider: which imports it rejects
(and with what message), and how it decodes stored key material to a JWK
when a key is exported. -/
structure SubtleCrypto where
  importReject : ImportFormat → KeyMaterial → AlgorithmProperties → List KeyUsage → Option String
  pkcs8ToJwk : List Nat → Jwk
  rawToJwk : List Nat → Jwk
  generatedToJwk : String → Nat → Jwk

/-- Key type resulting from an import, per the Web Crypto API: PKCS8 always
yields a private key, raw a secret key, and a JWK yields a private key
exactly when it carries the private component `d`. -/
def keyTypeOfImport : ImportFormat → KeyMaterial → KeyType
  | .pkcs8, _ => .priv
  | .raw, _ => .secret
  | .jwk, .jwkMaterial j => if j.d = none then .pub else .priv
  | .jwk, _ => .pub

/-- Model of `crypto.subtle.importKey`: the provider may reject, otherwise
the returned key records exactly the requested algorithm, extractability and
usages. -/
def subtleImportKey (P : SubtleCrypto) (fmt : ImportFormat) (mat : KeyMaterial)
    (alg : AlgorithmProperties) (extractable : Bool) (usages : List KeyUsage) :
    Except CryptoError CryptoKey :=
  match P.importReject fmt mat alg usages with
  | some msg => .error (.providerError msg)
  | none =>
    .ok { keyType := keyTypeOfImport fmt mat
          algorithm := alg
          extractable := extractable
          usages := usages
          material := mat }

/-- The JWK view of stored key material. -/
def materialAsJwk (P : SubtleCrypto) : KeyMaterial → Jwk
  | .pkcs8Bytes bs => P.pkcs8ToJwk bs
  | .jwkMaterial j => j
  | .rawBytes bs => P.rawToJwk bs
  | .generated n i => P.generatedToJwk n i

/-- Model of `crypto.subtle.exportKey("jwk", key)`: succeeds only on
extractable keys. -/
def subtleExportJwk (P : SubtleCrypto) (k : CryptoKey) : Except CryptoError Jwk :=
  if k.extractable then .ok (materialAsJwk P k.material)
  else .error (.providerError "key is not extractable")

/-- Model of `crypto.subtle.generateKey` for sign/verify key pairs: the Web
Crypto API distributes the requested usages over the pair (sign to the
private key, verify to the public key) and records the requested algorithm
and extractability on both.  `fresh` models provider entropy: distinct
invocations carry distinct material ids. -/
def subtleGenerateKey (alg : AlgorithmProperties) (extractable : Bool)
    (usages : List KeyUsage) (fresh : Nat) : CryptoKeyPair :=
  { privateKey :=
      { keyType := .priv
        algorithm := alg
        extractable := extractable
        usages := usages.filter (· == .sign)
        material := .generated alg.name (2 * fresh) }
    publicKey :=
      { keyType := .pub
        algorithm := alg
        extractable := extractable
        usages := usages.filter (· == .verify)
        material := .generated alg.name (2 * fresh + 1) } }

/-! ### Key pair provider (utils/crypto.ts) -/

/-- The source `generateKeyPair(keyPairAlgorithm = "ec")`:
`crypto.subtle.generateKey(getAlgorithmProperties(keyPairAlgorithm), true,
["sign", "verify"])`.  `fresh` stands for the provider's entropy. -/
def generateKeyPair (fresh : Nat) (keyPairAlgorithm : KeyPairAlgorithm := .ec) :
    CryptoKeyPair :=
  subtleGenerateKey (getAlgorithmProperties keyPairAlgorithm) true [.sign, .verify] fresh

/-- The source `importHmacKey(hmacKey)`: decode the base64url secret (the
decoder lives in `utils/encoding.ts`, outside the modelled sources, so it is
passed in as the fallible function `decodeBase64Url`) and import it raw as a
non-extractable HMAC/SHA-256 key with sign and verify usage. -/
def importHmacKey (P : SubtleCrypto)
    (decodeBase64Url : String → Except CryptoError (List Nat))
    (hmacKey : String) : Except CryptoError CryptoKey := do
  let bytes ← decodeBase64Url hmacKey
  subtleImportKey P .raw (.rawBytes bytes)
    { name := "HMAC", hash := some "SHA-256" } false [.sign, .verify]

/-! ### PEM private-key importer (CryptoKeyUtils/importKeyPairFromPemPrivateKey.ts) -/

/-- The source `derivePublicKey(privateKey, keyPairAlgorithm = "ec")`: export
the private key as a JWK, drop the private component `d`, force `key_ops` to
`["verify"]`, and re-import the result as an extractable verify-only public
key under the registry parameters for the algorithm. -/
def derivePublicKey (P : SubtleCrypto) (privateKey : CryptoKey)
    (keyPairAlgorithm : KeyPairAlgorithm := .ec) : Except CryptoError CryptoKey := do
  let jwk ← subtleExportJwk P privateKey
  let jwkPublic := { jwk with d := none, key_ops := ["verify"] }
  subtleImportKey P .jwk (.jwkMaterial jwkPublic)
    (getAlgorithmProperties keyPairAlgorithm) true [.verify]

/-- The source `importKeyPairFromPemPrivateKey(pemPrivateKey,
keyPairAlgorithm = "ec")`.  `extractFirstPemObject` lives in `utils/pem.ts`,
outside the modelled sources, so it is passed in as a fallible function. -/
def importKeyPairFromPemPrivateKey (P : SubtleCrypto)
    (extractFirstPemObject : String → Except CryptoError (List Nat))
    (pemPrivateKey : String) (keyPairAlgorithm : KeyPairAlgorithm := .ec) :
    Except CryptoError CryptoKeyPair := do
  let bytes ← extractFirstPemObject pemPrivateKey
  let privateKey ← subtleImportKey P .pkcs8 (.pkcs8Bytes bytes)
    (getAlgorithmProperties keyPairAlgorithm) true [.sign]
  let publicKey ← derivePublicKey P privateKey keyPairAlgorithm
  pure { privateKey := privateKey, publicKey := publicKey }

/-! ### Workflow data model (AcmeWorkflows.ts collaborators) -/

/-- A `DnsTxtRecord` expected answer (`{name, content}`). -/
structure DnsTxtRecord where
  name : String
  content : String
deriving DecidableEq, Repr

/-- An `HttpResource` expected answer. -/
structure HttpResource where
  path : String
  content : String
deriving DecidableEq, Repr

/-- Errors raised inside `requestCertificate` or by its collaborators: a
timeout from a polling operation, or a generic `Error` with a message (the
only kind the workflow itself constructs). -/
inductive AcmeError where
  | timeout
  | errMsg (msg : String)
deriving DecidableEq, Repr

instance exceptDecEq {ε α : Type} [DecidableEq ε] [DecidableEq α] :
    DecidableEq (Except ε α)
  | .error e, .error f =>
    decidable_of_iff (e = f) ⟨by rintro rfl; rfl, fun h => by injection h⟩
  | .ok a, .ok b =>
    decidable_of_iff (a = b) ⟨by rintro rfl; rfl, fun h => by injection h⟩
  | .error _, .ok _ => isFalse (fun h => Except.noConfusion h)
  | .ok _, .error _ => isFalse (fun h => Except.noConfusion h)

/-- Behaviour record for one remote challenge object: its identifying token
and the outcomes of `getDnsRecordAnswer()` / `getHttpResource()` /
`submit()` when the workflow calls them. -/
structure AcmeChallenge where
  token : String
  dnsAnswer : Except AcmeError DnsTxtRecord
  httpResource : Except AcmeError HttpResource
  submitResult : Except AcmeError Unit
deriving DecidableEq, Repr

/-- Behaviour record for one authorization: `findDns01Challenge()` /
`findHttp01Challenge()` return the corresponding option. -/
structure Authorization where
  domain : String
  dns01 : Option AcmeChallenge := none
  http01 : Option AcmeChallenge := none
deriving DecidableEq, Repr

/-- Rendering of an authorization used in the workflow's error messages;
it stands in for the source's `JSON.stringify(authorization)` (the exact
JSON text is immaterial, only that the message names the authorization). -/
def stringifyAuthorization (a : Authorization) : String :=
  "authorization(" ++ a.domain ++ ")"

/-- One collaborator interaction of the workflow, in the order the source
awaits them. -/
inductive Event where
  | createOrder (domains : List String)
  | pollStatus (pollUntil : String) (timeoutMs : Nat)
  | getDnsRecordAnswer (token : String)
  | updateDnsRecords (records : List DnsTxtRecord)
  | findAuthoritativeNameServerIps (name : String)
  | pollDnsTxtRecord (name : String) (content : String) (timeoutMs : Nat)
  | sleep (ms : Nat)
  | submit (token : String)
  | getHttpResource (token : String)
  | updateHttpResources (resources : List HttpResource)
  | finalize
  | getCertificate
deriving DecidableEq, Repr

/-- Result of running a workflow fragment: the value or the first error,
paired with the ordered trace of collaborator interactions performed. -/
abbrev Wf (α : Type) : Type := Except AcmeError α × List Event

/-- Sequencing of workflow fragments: an error short-circuits, traces
concatenate. -/
def Wf.bind {α β : Type} (x : Wf α) (f : α → Wf β) : Wf β :=
  match x with
  | (.error e, tr) => (.error e, tr)
  | (.ok a, tr) => ((f a).1, tr ++ (f a).2)

instance : Monad Wf where
  pure a := (.ok a, [])
  bind := Wf.bind

/-- A collaborator call: records its event and yields the environment's
outcome for it. -/
def call {α : Type} (ev : Event) (x : Except AcmeError α) : Wf α := (x, [ev])

/-- A thrown exception (`throw new Error(...)` or a rejected promise). -/
def throwErr {α : Type} (e : AcmeError) : Wf α := (.error e, [])

/-- Model of the source's `try { ... } catch(e) { ... }`: the handler
receives every exception, whatever its kind. -/
def Wf.catchAll {α : Type} (x : Wf α) (h : AcmeError → Wf α) : Wf α :=
  match x with
  | (.ok a, tr) => (.ok a, tr)
  | (.error e, tr) => ((h e).1, tr ++ (h e).2)

/-- Sequential interpretation of `await Promise.all(xs)`: all branches must
succeed, the first failure aborts the group.  (The source starts the
branches concurrently; the claims proved below only depend on the group
boundary that `await Promise.all` imposes, not on interleaving inside the
group.) -/
def allSeq {α : Type} : List (Wf α) → Wf (List α)
  | [] => pure []
  | x :: xs => do
    let a ← x
    let as ← allSeq xs
    pure (a :: as)

/-- Environment of `requestCertificate`: one field per collaborator call
site, giving that call's outcome.  The three `pollStatus` call sites carry
distinct arguments in the source (`("ready", 1)`, `("ready", timeout)`,
`("valid", timeout)`) and get one field each.  The DNS utilities absorb the
optional `resolveDns` override, which the source merely forwards to them. -/
structure WorkflowEnv where
  createOrderResult : Except AcmeError (List Authorization)
  probeResult : Except AcmeError Unit
  readyPollResult : Except AcmeError Unit
  validPollResult : Except AcmeError Unit
  findNameServerIps : String → Except AcmeError (List String)
  pollDnsTxt : String → String → List String → Nat → Except AcmeError Unit
  finalizeResult : Except AcmeError CryptoKeyPair
  certificateResult : Except AcmeError String

/-- The `RequestCertificatesConfig` record.  The `acmeAccount` handle is
represented by the environment's `createOrderResult`; `resolveDns` is
forwarded opaquely to the DNS utilities and absorbed there. -/
structure RequestCertificatesConfig where
  domains : List String
  updateDnsRecords : Option (List DnsTxtRecord → Except AcmeError Unit) := none
  updateHttpResources : Option (List HttpResource → Except AcmeError Unit) := none
  delayAfterDnsRecordsConfirmed : Option Nat := none
  timeout : Option Nat := none

/-- The record `{certificate, certKeyPair, acmeOrder}` returned by
`requestCertificate`; the order handle is represented by its authorization
list. -/
structure RequestCertificateResult where
  certificate : String
  certKeyPair : CryptoKeyPair
  acmeOrderAuthorizations : List Authorization
deriving DecidableEq, Repr

/-- The source's `acmeOrder.authorizations.map(...)` looking up every
`dns-01` challenge: the callback throws at the first authorization lacking
one, so later authorizations are not inspected. -/
def lookupDns01Challenges : List Authorization → Wf (List AcmeChallenge)
  | [] => pure []
  | a :: rest =>
    match a.dns01 with
    | none =>
      throwErr (.errMsg
        ("Cannot find dns01 challenge for authorization " ++
          stringifyAuthorization a ++ "."))
    | some c => do
      let cs ← lookupDns01Challenges rest
      pure (c :: cs)

/-- The symmetric lookup of every `http-01` challenge. -/
def lookupHttp01Challenges : List Authorization → Wf (List AcmeChallenge)
  | [] => pure []
  | a :: rest =>
    match a.http01 with
    | none =>
      throwErr (.errMsg
        ("Cannot find http01 challenge for authorization " ++
          stringifyAuthorization a ++ "."))
    | some c => do
      let cs ← lookupHttp01Challenges rest
      pure (c :: cs)

/-- One branch of the propagation fan-out: resolve the authoritative name
servers for the record's name, then poll them for the expected content with
the configured timeout (`DnsUtils.findAuthoritativeNameServerIps` followed
by `DnsUtils.pollDnsTxtRecord`). -/
def confirmDnsRecord (env : WorkflowEnv) (timeoutMs : Nat) (r : DnsTxtRecord) :
    Wf Unit := do
  let ns ← call (.findAuthoritativeNameServerIps r.name) (env.findNameServerIps r.name)
  call (.pollDnsTxtRecord r.name r.content timeoutMs)
    (env.pollDnsTxt r.name r.content ns timeoutMs)

/-- The DNS-01 branch of the challenge phase (source lines 80-117): look up
every `dns-01` challenge, fetch every expected record, invoke the callback
once with the full list, confirm propagation of every record, wait the
settle delay, then submit every challenge. -/
def dnsChallengeFlow (env : WorkflowEnv)
    (updateDnsRecords : List DnsTxtRecord → Except AcmeError Unit)
    (delayMs timeoutMs : Nat) (auths : List Authorization) : Wf Unit := do
  let dns01Challenges ← lookupDns01Challenges auths
  let expectedRecords ← allSeq (dns01Challenges.map fun c =>
    call (.getDnsRecordAnswer c.token) c.dnsAnswer)
  let _ ← call (.updateDnsRecords expectedRecords) (updateDnsRecords expectedRecords)
  let _ ← allSeq (expectedRecords.map fun r => confirmDnsRecord env timeoutMs r)
  let _ ← call (.sleep delayMs) (.ok ())
  let _ ← allSeq (dns01Challenges.map fun c => call (.submit c.token) c.submitResult)
  pure ()

/-- The HTTP-01 branch of the challenge phase (source lines 118-141):
symmetric, without the confirmation and settle-delay steps. -/
def httpChallengeFlow
    (updateHttpResources : List HttpResource → Except AcmeError Unit)
    (auths : List Authorization) : Wf Unit := do
  let http01Challenges ← lookupHttp01Challenges auths
  let expectedRecords ← allSeq (http01Challenges.map fun c =>
    call (.getHttpResource c.token) c.httpResource)
  let _ ← call (.updateHttpResources expectedRecords) (updateHttpResources expectedRecords)
  let _ ← allSeq (http01Challenges.map fun c => call (.submit c.token) c.submitResult)
  pure ()

/-- Branch selection of the challenge phase: `if (updateDnsRecords) { ... }
else if (updateHttpResources) { ... }` — with neither callback nothing
happens. -/
def challengePhase (cfg : RequestCertificatesConfig) (env : WorkflowEnv)
    (delayMs timeoutMs : Nat) (auths : List Authorization) : Wf Unit :=
  match cfg.updateDnsRecords with
  | some upd => dnsChallengeFlow env upd delayMs timeoutMs auths
  | none =>
    match cfg.updateHttpResources with
    | some upd => httpChallengeFlow upd auths
    | none => pure ()

/-- The readiness probe (source lines 70-76): a single `pollStatus` call
requesting `ready` with timeout 1, wrapped in `try { ...; challengeRequired
= false } catch(e) {}` — the empty handler swallows every exception,
whatever its kind, leaving `challengeRequired` true. -/
def probeReadiness (env : WorkflowEnv) : Wf Bool :=
  Wf.catchAll
    (do
      let _ ← call (.pollStatus "ready" 1) env.probeResult
      pure false)
    (fun _ => pure true)

/-- The tail of the workflow (source lines 147-152): finalize, poll for
`valid` with the full timeout, retrieve the certificate, and build the
returned record. -/
def finalizePhase (env : WorkflowEnv) (timeoutMs : Nat)
    (auths : List Authorization) : Wf RequestCertificateResult := do
  let certKeyPair ← call .finalize env.finalizeResult
  let _ ← call (.pollStatus "valid" timeoutMs) env.validPollResult
  let certificate ← call .getCertificate env.certificateResult
  pure { certificate := certificate
         certKeyPair := certKeyPair
         acmeOrderAuthorizations := auths }

/-- The source `requestCertificate(config)` (AcmeWorkflows.ts lines 49-153):
create the order; run the readiness probe; if a challenge is required run
the selected flow and then poll for `ready` with the full timeout; finally
finalize, poll for `valid`, and retrieve the certificate. -/
def requestCertificate (cfg : RequestCertificatesConfig) (env : WorkflowEnv) :
    Wf RequestCertificateResult := do
  let delayMs := cfg.delayAfterDnsRecordsConfirmed.getD 5000
  let timeoutMs := cfg.timeout.getD 30000
  let auths ← call (.createOrder cfg.domains) env.createOrderResult
  let challengeRequired ← probeReadiness env
  let _ ←
    if challengeRequired then do
      let _ ← challengePhase cfg env delayMs timeoutMs auths
      call (.pollStatus "ready" timeoutMs) env.readyPollResult
    else
      pure ()
  finalizePhase env timeoutMs auths

/-! ### Basic lemmas about the workflow interpreter -/

@[simp] theorem wf_bind_eq {α β : Type} (x : Wf α) (f : α → Wf β) :
    x >>= f = Wf.bind x f := rfl

@[simp] theorem wf_pure_eq {α : Type} (a : α) :
    (pure a : Wf α) = (.ok a, []) := rfl

@[simp] theorem wf_bind_mk_error {α β : Type} (e : AcmeError) (tr : List Event)
    (f : α → Wf β) : Wf.bind (.error e, tr) f = (.error e, tr) := rfl

@[simp] theorem wf_bind_mk_ok {α β : Type} (a : α) (tr : List Event)
    (f : α → Wf β) : Wf.bind (.ok a, tr) f = ((f a).1, tr ++ (f a).2) := rfl

theorem wf_bind_fst {α β : Type} (x : Wf α) (f : α → Wf β) :
    (Wf.bind x f).1 = match x.1 with
      | .error e => .error e
      | .ok a => (f a).1 := by
  rcases x with ⟨r, tr⟩
  cases r <;> rfl

theorem wf_bind_snd {α β : Type} (x : Wf α) (f : α → Wf β) :
    (Wf.bind x f).2 = x.2 ++ (match x.1 with
      | .error _ => []
      | .ok a => (f a).2) := by
  rcases x with ⟨r, tr⟩
  cases r <;> simp [Wf.bind]

@[simp] theorem call_fst {α : Type} (ev : Event) (x : Except AcmeError α) :
    (call ev x).1 = x := rfl

@[simp] theorem call_snd {α : Type} (ev : Event) (x : Except AcmeError α) :
    (call ev x).2 = [ev] := rfl

theorem probeReadiness_ok {env : WorkflowEnv} (h : env.probeResult = .ok ()) :
    probeReadiness env = (.ok false, [.pollStatus "ready" 1]) := by
  simp [probeReadiness, Wf.catchAll, call, h, Wf.bind]

theorem probeReadiness_error {env : WorkflowEnv} {e : AcmeError}
    (h : env.probeResult = .error e) :
    probeReadiness env = (.ok true, [.pollStatus "ready" 1]) := by
  simp [probeReadiness, Wf.catchAll, call, h, Wf.bind]

theorem probeReadiness_cases (env : WorkflowEnv) :
    probeReadiness env = (.ok false, [.pollStatus "ready" 1]) ∨
    probeReadiness env = (.ok true, [.pollStatus "ready" 1]) := by
  rcases h : env.probeResult with e | u
  · exact .inr (probeReadiness_error h)
  · exact .inl (probeReadiness_ok (by cases u; exact h))

/-! ### Event classifiers and trace ordering -/

/-- Classifier for challenge submission events. -/
def Event.isSubmitEv : Event → Bool
  | .submit _ => true
  | _ => false

/-- Classifier for DNS propagation confirmation events. -/
def Event.isPollTxtEv : Event → Bool
  | .pollDnsTxtRecord _ _ _ => true
  | _ => false

/-- Classifier for the settle-delay event. -/
def Event.isSleepEv : Event → Bool
  | .sleep _ => true
  | _ => false

/-- Classifier for the finalize event. -/
def Event.isFinalizeEv : Event → Bool
  | .finalize => true
  | _ => false

/-- Classifier for polls requesting the `ready` status (the probe or the
full-timeout poll). -/
def Event.isReadyPollEv : Event → Bool
  | .pollStatus s _ => s == "ready"
  | _ => false

/-- Classifier for fulfillment-callback invocations (either kind). -/
def Event.isUpdateEv : Event → Bool
  | .updateDnsRecords _ => true
  | .updateHttpResources _ => true
  | _ => false

/-- Classifier for interactions belonging to the HTTP-01 flow. -/
def Event.isHttpFlowEv : Event → Bool
  | .getHttpResource _ => true
  | .updateHttpResources _ => true
  | _ => false

/-- Every event satisfying `p` occurs strictly before every event
satisfying `q` in the trace. -/
def eventsPrecede (p q : Event → Bool) (tr : List Event) : Prop :=
  ∀ i j (hi : i < tr.length) (hj : j < tr.length),
    p (tr.get ⟨i, hi⟩) = true → q (tr.get ⟨j, hj⟩) = true → i < j

theorem eventsPrecede_of_split {p q : Event → Bool} {tr t1 t2 : List Event}
    (htr : tr = t1 ++ t2)
    (h1 : ∀ e ∈ t1, q e = false) (h2 : ∀ e ∈ t2, p e = false) :
    eventsPrecede p q tr := by
  subst htr
  intro i j hi hj hp hq
  simp only [List.get_eq_getElem] at hp hq
  have hi1 : i < t1.length := by
    by_contra hge
    push_neg at hge
    have hlen : i - t1.length < t2.length := by
      simp only [List.length_append] at hi
      omega
    rw [List.getElem_append_right hge] at hp
    have hfalse := h2 (t2.get ⟨i - t1.length, hlen⟩) (List.get_mem _ _ _)
    rw [List.get_eq_getElem] at hfalse
    rw [hfalse] at hp
    exact Bool.noConfusion hp
  have hj1 : t1.length ≤ j := by
    by_contra hlt
    push_neg at hlt
    rw [List.getElem_append_left hlt] at hq
    have hfalse := h1 _ (List.getElem_mem hlt)
    rw [hfalse] at hq
    exact Bool.noConfusion hq
  omega

/-! ### Structural lemmas about the workflow phases -/

theorem allSeq_trace_mem {α : Type} {l : List (Wf α)} {e : Event}
    (he : e ∈ (allSeq l).2) : ∃ x ∈ l, e ∈ x.2 := by
  induction l with
  | nil => simp [allSeq] at he
  | cons x xs ih =>
    rw [allSeq] at he
    simp only [wf_bind_eq] at he
    rw [wf_bind_snd] at he
    rcases List.mem_append.1 he with h | h
    · exact ⟨x, List.mem_cons_self .., h⟩
    · rcases hx : x.1 with e' | a
      · rw [hx] at h; simp at h
      · rw [hx] at h
        simp only [wf_bind_snd] at h
        rcases List.mem_append.1 h with h' | h'
        · obtain ⟨y, hy, hey⟩ := ih h'
          exact ⟨y, List.mem_cons_of_mem _ hy, hey⟩
        · rcases hxs : (allSeq xs).1 with e'' | as
          · rw [hxs] at h'; simp at h'
          · rw [hxs] at h'; simp at h'

theorem allSeq_map_call_mem {α β : Type} {l : List α} {evf : α → Event}
    {resf : α → Except AcmeError β} {e : Event}
    (he : e ∈ (allSeq (l.map fun c => call (evf c) (resf c))).2) :
    ∃ c ∈ l, e = evf c := by
  obtain ⟨x, hx, hex⟩ := allSeq_trace_mem he
  obtain ⟨c, hc, rfl⟩ := List.mem_map.1 hx
  refine ⟨c, hc, ?_⟩
  simpa [call] using hex

theorem allSeq_ok_forall2 {α β : Type} {l : List α} {f : α → Wf β}
    {bs : List β} {tr : List Event}
    (h : allSeq (l.map f) = (.ok bs, tr)) :
    List.Forall₂ (fun a b => (f a).1 = .ok b) l bs := by
  induction l generalizing bs tr with
  | nil =>
    simp only [List.map_nil, allSeq] at h
    cases h
    exact List.Forall₂.nil
  | cons a as ih =>
    simp only [List.map_cons, allSeq, wf_bind_eq] at h
    rcases hfa : (f a) with ⟨r, tra⟩
    rcases r with e | b
    · rw [hfa] at h; simp [Wf.bind] at h
    · rw [hfa] at h
      simp only [wf_bind_mk_ok] at h
      rcases hrest : allSeq (as.map f) with ⟨rr, trr⟩
      rcases rr with e' | bs'
      · rw [hrest] at h; simp [Wf.bind] at h
      · rw [hrest] at h
        simp only [wf_bind_mk_ok, wf_pure_eq] at h
        obtain ⟨h1, -⟩ := Prod.mk.injEq .. ▸ h
        cases hbs : bs with
        | nil => rw [hbs] at h; simp at h
        | cons b0 bs0 =>
          rw [hbs] at h
          have hfst : (Except.ok (b :: bs') : Except AcmeError (List β)) = .ok (b0 :: bs0) := by
            have := congrArg Prod.fst h
            simpa using this
          have hb : b = b0 ∧ bs' = bs0 := by
            have := Except.ok.inj hfst
            exact ⟨(List.cons.injEq .. ▸ this).1, (List.cons.injEq .. ▸ this).2⟩
          refine List.Forall₂.cons ?_ ?_
          · rw [hfa, ← hb.1]
          · exact hb.2 ▸ ih hrest

theorem forall2_trans {α β γ : Type} {r : α → β → Prop} {s : β → γ → Prop}
    {as : List α} {bs : List β} {cs : List γ}
    (h1 : List.Forall₂ r as bs) (h2 : List.Forall₂ s bs cs) :
    List.Forall₂ (fun a c => ∃ b, r a b ∧ s b c) as cs := by
  induction h1 generalizing cs with
  | nil => cases h2; exact List.Forall₂.nil
  | cons hr _ ih =>
    cases h2 with
    | cons hs htail => exact List.Forall₂.cons ⟨_, hr, hs⟩ (ih htail)

theorem wf_bind_assoc {α β γ : Type} (x : Wf α) (f : α → Wf β) (g : β → Wf γ) :
    Wf.bind (Wf.bind x f) g = Wf.bind x (fun a => Wf.bind (f a) g) := by
  rcases x with ⟨r, tr⟩
  rcases r with e | a
  · rfl
  · simp only [wf_bind_mk_ok]
    rcases hf : f a with ⟨rf, trf⟩
    rcases rf with e' | b <;>
      simp [Wf.bind, List.append_assoc]

theorem lookupDns01_trace (auths : List Authorization) :
    (lookupDns01Challenges auths).2 = [] := by
  induction auths with
  | nil => rfl
  | cons a rest ih =>
    rw [lookupDns01Challenges]
    rcases a.dns01 with _ | c
    · rfl
    · simp only [wf_bind_eq]
      rw [wf_bind_snd, ih]
      rcases (lookupDns01Challenges rest).1 with e | cs <;> rfl

theorem lookupHttp01_trace (auths : List Authorization) :
    (lookupHttp01Challenges auths).2 = [] := by
  induction auths with
  | nil => rfl
  | cons a rest ih =>
    rw [lookupHttp01Challenges]
    rcases a.http01 with _ | c
    · rfl
    · simp only [wf_bind_eq]
      rw [wf_bind_snd, ih]
      rcases (lookupHttp01Challenges rest).1 with e | cs <;> rfl

theorem lookupDns01_ok {auths : List Authorization} {chs : List AcmeChallenge}
    {tr : List Event} (h : lookupDns01Challenges auths = (.ok chs, tr)) :
    List.Forall₂ (fun a c => a.dns01 = some c) auths chs := by
  induction auths generalizing chs tr with
  | nil =>
    rw [lookupDns01Challenges] at h
    obtain ⟨h1, -⟩ := Prod.mk.injEq .. ▸ h
    cases Except.ok.inj h1
    exact List.Forall₂.nil
  | cons a rest ih =>
    rw [lookupDns01Challenges] at h
    rcases hd : a.dns01 with _ | c
    · rw [hd] at h
      exact absurd (congrArg Prod.fst h) (by simp [throwErr])
    · rw [hd] at h
      simp only [wf_bind_eq] at h
      rcases hrest : lookupDns01Challenges rest with ⟨rr, trr⟩
      rw [hrest] at h
      rcases rr with e | cs
      · exact absurd (congrArg Prod.fst h) (by simp [Wf.bind])
      · simp only [wf_bind_mk_ok, wf_pure_eq] at h
        have h1 := congrArg Prod.fst h
        simp only at h1
        cases Except.ok.inj h1
        exact List.Forall₂.cons hd (ih hrest)

theorem lookupHttp01_ok {auths : List Authorization} {chs : List AcmeChallenge}
    {tr : List Event} (h : lookupHttp01Challenges auths = (.ok chs, tr)) :
    List.Forall₂ (fun a c => a.http01 = some c) auths chs := by
  induction auths generalizing chs tr with
  | nil =>
    rw [lookupHttp01Challenges] at h
    obtain ⟨h1, -⟩ := Prod.mk.injEq .. ▸ h
    cases Except.ok.inj h1
    exact List.Forall₂.nil
  | cons a rest ih =>
    rw [lookupHttp01Challenges] at h
    rcases hd : a.http01 with _ | c
    · rw [hd] at h
      exact absurd (congrArg Prod.fst h) (by simp [throwErr])
    · rw [hd] at h
      simp only [wf_bind_eq] at h
      rcases hrest : lookupHttp01Challenges rest with ⟨rr, trr⟩
      rw [hrest] at h
      rcases rr with e | cs
      · exact absurd (congrArg Prod.fst h) (by simp [Wf.bind])
      · simp only [wf_bind_mk_ok, wf_pure_eq] at h
        have h1 := congrArg Prod.fst h
        simp only at h1
        cases Except.ok.inj h1
        exact List.Forall₂.cons hd (ih hrest)

theorem lookupDns01_ok_of_forall {auths : List Authorization}
    (h : ∀ a ∈ auths, ∃ c, a.dns01 = some c) :
    ∃ chs, lookupDns01Challenges auths = (.ok chs, []) := by
  induction auths with
  | nil => exact ⟨[], rfl⟩
  | cons a rest ih =>
    obtain ⟨c, hc⟩ := h a (List.mem_cons_self ..)
    obtain ⟨chs, hchs⟩ := ih (fun b hb => h b (List.mem_cons_of_mem _ hb))
    refine ⟨c :: chs, ?_⟩
    rw [lookupDns01Challenges, hc]
    simp [hchs, Wf.bind]

theorem lookupDns01_first_missing {pre : List Authorization} {a : Authorization}
    {rest : List Authorization}
    (hpre : ∀ b ∈ pre, ∃ c, b.dns01 = some c) (ha : a.dns01 = none) :
    lookupDns01Challenges (pre ++ a :: rest) =
      (.error (.errMsg ("Cannot find dns01 challenge for authorization " ++
        stringifyAuthorization a ++ ".")), []) := by
  induction pre with
  | nil =>
    rw [List.nil_append, lookupDns01Challenges, ha]
    rfl
  | cons b pre ih =>
    obtain ⟨c, hc⟩ := hpre b (List.mem_cons_self ..)
    rw [List.cons_append, lookupDns01Challenges, hc]
    rw [ih (fun x hx => hpre x (List.mem_cons_of_mem _ hx))]
    rfl

theorem confirmDnsRecord_mem {env : WorkflowEnv} {t : Nat} {r : DnsTxtRecord}
    {e : Event} (he : e ∈ (confirmDnsRecord env t r).2) :
    e = .findAuthoritativeNameServerIps r.name ∨
    e = .pollDnsTxtRecord r.name r.content t := by
  rw [confirmDnsRecord] at he
  simp only [wf_bind_eq] at he
  rw [wf_bind_snd] at he
  rcases hns : (call (Event.findAuthoritativeNameServerIps r.name)
      (env.findNameServerIps r.name)).1 with e' | ns
  · rw [hns] at he
    simp only [call_snd] at he
    simpa using .inl (List.mem_singleton.1 (by simpa using he))
  · rw [hns] at he
    simp only [call_snd] at he
    rcases List.mem_append.1 he with h | h
    · exact .inl (List.mem_singleton.1 h)
    · exact .inr (List.mem_singleton.1 h)

theorem confirmDnsRecord_ok_trace {env : WorkflowEnv} {t : Nat}
    {r : DnsTxtRecord} {u : Unit} {tr : List Event}
    (h : confirmDnsRecord env t r = (.ok u, tr)) :
    tr = [.findAuthoritativeNameServerIps r.name,
          .pollDnsTxtRecord r.name r.content t] := by
  rw [confirmDnsRecord] at h
  simp only [wf_bind_eq] at h
  rcases hns : env.findNameServerIps r.name with e' | ns
  · rw [show (call (Event.findAuthoritativeNameServerIps r.name)
        (env.findNameServerIps r.name)) =
        ((.error e' : Except AcmeError (List String)),
          [.findAuthoritativeNameServerIps r.name])
        by rw [call, hns]] at h
    exact absurd (congrArg Prod.fst h) (by simp)
  · rw [show (call (Event.findAuthoritativeNameServerIps r.name)
        (env.findNameServerIps r.name)) =
        ((.ok ns : Except AcmeError (List String)),
          [.findAuthoritativeNameServerIps r.name])
        by rw [call, hns]] at h
    simp only [wf_bind_mk_ok] at h
    have h2 := congrArg Prod.snd h
    simp only [call] at h2
    exact h2.symm

theorem allSeq_confirm_count {env : WorkflowEnv} {t : Nat}
    {recs : List DnsTxtRecord} {us : List Unit} {tr : List Event}
    (h : allSeq (recs.map fun r => confirmDnsRecord env t r) = (.ok us, tr)) :
    tr.countP Event.isPollTxtEv = recs.length := by
  induction recs generalizing us tr with
  | nil =>
    simp only [List.map_nil, allSeq] at h
    cases h
    rfl
  | cons r recs ih =>
    simp only [List.map_cons, allSeq, wf_bind_eq] at h
    rcases hc : confirmDnsRecord env t r with ⟨rc, trc⟩
    rw [hc] at h
    rcases rc with e | u0
    · exact absurd (congrArg Prod.fst h) (by simp [Wf.bind])
    · simp only [wf_bind_mk_ok] at h
      rcases hrest : allSeq (recs.map fun r => confirmDnsRecord env t r) with ⟨rr, trr⟩
      rw [hrest] at h
      rcases rr with e' | us'
      · exact absurd (congrArg Prod.fst h) (by simp [Wf.bind])
      · simp only [wf_bind_mk_ok, wf_pure_eq] at h
        have h2 := congrArg Prod.snd h
        simp only [List.append_nil] at h2
        rw [← h2, List.countP_append]
        rw [confirmDnsRecord_ok_trace hc]
        have hcount := ih hrest
        simp [List.countP_cons, Event.isPollTxtEv, hcount, Nat.add_comm]

theorem finalizePhase_trace_cases (env : WorkflowEnv) (t : Nat)
    (auths : List Authorization) :
    (finalizePhase env t auths).2 = [.finalize] ∨
    (finalizePhase env t auths).2 = [.finalize, .pollStatus "valid" t] ∨
    (finalizePhase env t auths).2 =
      [.finalize, .pollStatus "valid" t, .getCertificate] := by
  rw [finalizePhase]
  simp only [wf_bind_eq]
  rcases hf : env.finalizeResult with e | kp
  · left
    simp [call, hf, Wf.bind]
  · rcases hv : env.validPollResult with e | u
    · right; left
      simp [call, hf, hv, Wf.bind]
    · rcases hg : env.certificateResult with e | s
      · right; right
        simp [call, hf, hv, hg, Wf.bind]
      · right; right
        simp [call, hf, hv, hg, Wf.bind]

theorem finalizePhase_mem {env : WorkflowEnv} {t : Nat}
    {auths : List Authorization} {e : Event}
    (he : e ∈ (finalizePhase env t auths).2) :
    e = .finalize ∨ e = .pollStatus "valid" t ∨ e = .getCertificate := by
  rcases finalizePhase_trace_cases env t auths with h | h | h <;>
    rw [h] at he <;> simp only [List.mem_cons, List.mem_singleton] at he <;> tauto

theorem requestCertificate_createFail {cfg : RequestCertificatesConfig}
    {env : WorkflowEnv} {e : AcmeError}
    (hc : env.createOrderResult = .error e) :
    requestCertificate cfg env = (.error e, [.createOrder cfg.domains]) := by
  rw [requestCertificate]
  simp only [wf_bind_eq]
  rw [show (call (Event.createOrder cfg.domains) env.createOrderResult) =
      ((.error e : Except AcmeError (List Authorization)), [.createOrder cfg.domains])
      by rw [call, hc]]
  rfl

theorem requestCertificate_fast {cfg : RequestCertificatesConfig}
    {env : WorkflowEnv} {auths : List Authorization}
    (hc : env.createOrderResult = .ok auths)
    (hp : env.probeResult = .ok ()) :
    requestCertificate cfg env =
      ((finalizePhase env (cfg.timeout.getD 30000) auths).1,
       [.createOrder cfg.domains, .pollStatus "ready" 1] ++
         (finalizePhase env (cfg.timeout.getD 30000) auths).2) := by
  rw [requestCertificate]
  simp only [wf_bind_eq]
  rw [show (call (Event.createOrder cfg.domains) env.createOrderResult) =
      ((.ok auths : Except AcmeError (List Authorization)), [.createOrder cfg.domains])
      by rw [call, hc]]
  simp only [wf_bind_mk_ok]
  rw [probeReadiness_ok hp]
  simp only [wf_bind_mk_ok]
  simp [Wf.bind]

theorem requestCertificate_challenge {cfg : RequestCertificatesConfig}
    {env : WorkflowEnv} {auths : List Authorization} {e : AcmeError}
    (hc : env.createOrderResult = .ok auths)
    (hp : env.probeResult = .error e) :
    requestCertificate cfg env =
      ((Wf.bind (challengePhase cfg env (cfg.delayAfterDnsRecordsConfirmed.getD 5000)
          (cfg.timeout.getD 30000) auths) (fun _ =>
        Wf.bind (call (.pollStatus "ready" (cfg.timeout.getD 30000)) env.readyPollResult)
          (fun _ => finalizePhase env (cfg.timeout.getD 30000) auths))).1,
       [.createOrder cfg.domains, .pollStatus "ready" 1] ++
        (Wf.bind (challengePhase cfg env (cfg.delayAfterDnsRecordsConfirmed.getD 5000)
          (cfg.timeout.getD 30000) auths) (fun _ =>
        Wf.bind (call (.pollStatus "ready" (cfg.timeout.getD 30000)) env.readyPollResult)
          (fun _ => finalizePhase env (cfg.timeout.getD 30000) auths))).2) := by
  rw [requestCertificate]
  simp only [wf_bind_eq]
  rw [show (call (Event.createOrder cfg.domains) env.createOrderResult) =
      ((.ok auths : Except AcmeError (List Authorization)), [.createOrder cfg.domains])
      by rw [call, hc]]
  simp only [wf_bind_mk_ok]
  rw [probeReadiness_error hp]
  simp only [wf_bind_mk_ok]
  rw [if_pos trivial]
  rfl

/-- Exhaustive case analysis of the DNS-01 flow's trace: it stops at the
first failing stage, and the trace is the concatenation of the traces of the
stages reached. -/
theorem dnsChallengeFlow_cases (env : WorkflowEnv)
    (upd : List DnsTxtRecord → Except AcmeError Unit) (d t : Nat)
    (auths : List Authorization) :
    (∃ e, lookupDns01Challenges auths = (.error e, []) ∧
      (dnsChallengeFlow env upd d t auths).2 = []) ∨
    (∃ chs e fetchTr, lookupDns01Challenges auths = (.ok chs, []) ∧
      allSeq (chs.map fun c => call (.getDnsRecordAnswer c.token) c.dnsAnswer) =
        (.error e, fetchTr) ∧
      (dnsChallengeFlow env upd d t auths).2 = fetchTr) ∨
    (∃ chs recs fetchTr e, lookupDns01Challenges auths = (.ok chs, []) ∧
      allSeq (chs.map fun c => call (.getDnsRecordAnswer c.token) c.dnsAnswer) =
        (.ok recs, fetchTr) ∧
      upd recs = .error e ∧
      (dnsChallengeFlow env upd d t auths).2 = fetchTr ++ [.updateDnsRecords recs]) ∨
    (∃ chs recs fetchTr e confTr, lookupDns01Challenges auths = (.ok chs, []) ∧
      allSeq (chs.map fun c => call (.getDnsRecordAnswer c.token) c.dnsAnswer) =
        (.ok recs, fetchTr) ∧
      upd recs = .ok () ∧
      allSeq (recs.map fun r => confirmDnsRecord env t r) = (.error e, confTr) ∧
      (dnsChallengeFlow env upd d t auths).2 =
        fetchTr ++ [.updateDnsRecords recs] ++ confTr) ∨
    (∃ chs recs fetchTr us confTr subTr,
      lookupDns01Challenges auths = (.ok chs, []) ∧
      allSeq (chs.map fun c => call (.getDnsRecordAnswer c.token) c.dnsAnswer) =
        (.ok recs, fetchTr) ∧
      upd recs = .ok () ∧
      allSeq (recs.map fun r => confirmDnsRecord env t r) = (.ok us, confTr) ∧
      (allSeq (chs.map fun c => call (.submit c.token) c.submitResult)).2 = subTr ∧
      (dnsChallengeFlow env upd d t auths).2 =
        fetchTr ++ [.updateDnsRecords recs] ++ confTr ++ [.sleep d] ++ subTr) := by
  have hlt := lookupDns01_trace auths
  rcases hlk : lookupDns01Challenges auths with ⟨rl, trl⟩
  rw [hlk] at hlt
  simp only at hlt
  subst hlt
  rcases rl with e | chs
  · refine .inl ⟨e, rfl, ?_⟩
    rw [dnsChallengeFlow]
    simp only [wf_bind_eq]
    rw [hlk]
    rfl
  · rcases hfet : allSeq (chs.map fun c => call (.getDnsRecordAnswer c.token) c.dnsAnswer)
      with ⟨rf, fetchTr⟩
    rcases rf with e | recs
    · refine .inr (.inl ⟨chs, e, fetchTr, rfl, hfet, ?_⟩)
      rw [dnsChallengeFlow]
      simp only [wf_bind_eq]
      rw [hlk]
      simp only [wf_bind_mk_ok, List.nil_append]
      rw [hfet]
      rfl
    · rcases hupd : upd recs with e | u
      · refine .inr (.inr (.inl ⟨chs, recs, fetchTr, e, rfl, hfet, hupd, ?_⟩))
        rw [dnsChallengeFlow]
        simp only [wf_bind_eq]
        rw [hlk]
        simp only [wf_bind_mk_ok, List.nil_append]
        rw [hfet]
        simp only [wf_bind_mk_ok]
        rw [show (call (Event.updateDnsRecords recs) (upd recs)) =
            ((.error e : Except AcmeError Unit), [.updateDnsRecords recs])
            by rw [call, hupd]]
        rfl
      · cases u
        rcases hconf : allSeq (recs.map fun r => confirmDnsRecord env t r)
          with ⟨rc, confTr⟩
        rcases rc with e | us
        · refine .inr (.inr (.inr (.inl
            ⟨chs, recs, fetchTr, e, confTr, rfl, hfet, hupd, hconf, ?_⟩)))
          rw [dnsChallengeFlow]
          simp only [wf_bind_eq]
          rw [hlk]
          simp only [wf_bind_mk_ok, List.nil_append]
          rw [hfet]
          simp only [wf_bind_mk_ok]
          rw [show (call (Event.updateDnsRecords recs) (upd recs)) =
              ((.ok () : Except AcmeError Unit), [.updateDnsRecords recs])
              by rw [call, hupd]]
          simp only [wf_bind_mk_ok]
          rw [hconf]
          simp [List.append_assoc]
        · rcases hsub : allSeq (chs.map fun c => call (.submit c.token) c.submitResult)
            with ⟨rs, subTr⟩
          refine .inr (.inr (.inr (.inr
            ⟨chs, recs, fetchTr, us, confTr, subTr, rfl, hfet, hupd, hconf, ?_, ?_⟩)))
          · rw [hsub]
          · rw [dnsChallengeFlow]
            simp only [wf_bind_eq]
            rw [hlk]
            simp only [wf_bind_mk_ok, List.nil_append]
            rw [hfet]
            simp only [wf_bind_mk_ok]
            rw [show (call (Event.updateDnsRecords recs) (upd recs)) =
                ((.ok () : Except AcmeError Unit), [.updateDnsRecords recs])
                by rw [call, hupd]]
            simp only [wf_bind_mk_ok]
            rw [hconf]
            simp only [wf_bind_mk_ok]
            rw [show (call (Event.sleep d) (.ok () : Except AcmeError Unit)) =
                ((.ok () : Except AcmeError Unit), [.sleep d]) from rfl]
            simp only [wf_bind_mk_ok]
            rw [hsub]
            rcases rs with e | vs <;> simp [Wf.bind, List.append_assoc]

/-- Exhaustive case analysis of the HTTP-01 flow's trace. -/
theorem httpChallengeFlow_cases
    (upd : List HttpResource → Except AcmeError Unit) (auths : List Authorization) :
    (∃ e, lookupHttp01Challenges auths = (.error e, []) ∧
      (httpChallengeFlow upd auths).2 = []) ∨
    (∃ chs e fetchTr, lookupHttp01Challenges auths = (.ok chs, []) ∧
      allSeq (chs.map fun c => call (.getHttpResource c.token) c.httpResource) =
        (.error e, fetchTr) ∧
      (httpChallengeFlow upd auths).2 = fetchTr) ∨
    (∃ chs recs fetchTr e, lookupHttp01Challenges auths = (.ok chs, []) ∧
      allSeq (chs.map fun c => call (.getHttpResource c.token) c.httpResource) =
        (.ok recs, fetchTr) ∧
      upd recs = .error e ∧
      (httpChallengeFlow upd auths).2 = fetchTr ++ [.updateHttpResources recs]) ∨
    (∃ chs recs fetchTr subTr, lookupHttp01Challenges auths = (.ok chs, []) ∧
      allSeq (chs.map fun c => call (.getHttpResource c.token) c.httpResource) =
        (.ok recs, fetchTr) ∧
      upd recs = .ok () ∧
      (allSeq (chs.map fun c => call (.submit c.token) c.submitResult)).2 = subTr ∧
      (httpChallengeFlow upd auths).2 =
        fetchTr ++ [.updateHttpResources recs] ++ subTr) := by
  have hlt := lookupHttp01_trace auths
  rcases hlk : lookupHttp01Challenges auths with ⟨rl, trl⟩
  rw [hlk] at hlt
  simp only at hlt
  subst hlt
  rcases rl with e | chs
  · refine .inl ⟨e, rfl, ?_⟩
    rw [httpChallengeFlow]
    simp only [wf_bind_eq]
    rw [hlk]
    rfl
  · rcases hfet : allSeq (chs.map fun c => call (.getHttpResource c.token) c.httpResource)
      with ⟨rf, fetchTr⟩
    rcases rf with e | recs
    · refine .inr (.inl ⟨chs, e, fetchTr, rfl, hfet, ?_⟩)
      rw [httpChallengeFlow]
      simp only [wf_bind_eq]
      rw [hlk]
      simp only [wf_bind_mk_ok, List.nil_append]
      rw [hfet]
      rfl
    · rcases hupd : upd recs with e | u
      · refine .inr (.inr (.inl ⟨chs, recs, fetchTr, e, rfl, hfet, hupd, ?_⟩))
        rw [httpChallengeFlow]
        simp only [wf_bind_eq]
        rw [hlk]
        simp only [wf_bind_mk_ok, List.nil_append]
        rw [hfet]
        simp only [wf_bind_mk_ok]
        rw [show (call (Event.updateHttpResources recs) (upd recs)) =
            ((.error e : Except AcmeError Unit), [.updateHttpResources recs])
            by rw [call, hupd]]
        rfl
      · cases u
        rcases hsub : allSeq (chs.map fun c => call (.submit c.token) c.submitResult)
          with ⟨rs, subTr⟩
        refine .inr (.inr (.inr
          ⟨chs, recs, fetchTr, subTr, rfl, hfet, hupd, ?_, ?_⟩))
        · rw [hsub]
        · rw [httpChallengeFlow]
          simp only [wf_bind_eq]
          rw [hlk]
          simp only [wf_bind_mk_ok, List.nil_append]
          rw [hfet]
          simp only [wf_bind_mk_ok]
          rw [show (call (Event.updateHttpResources recs) (upd recs)) =
              ((.ok () : Except AcmeError Unit), [.updateHttpResources recs])
              by rw [call, hupd]]
          simp only [wf_bind_mk_ok]
          rw [hsub]
          rcases rs with e | vs <;> simp [Wf.bind, List.append_assoc]

/-- Every event of the DNS-01 flow's trace has one of the flow's six
shapes. -/
theorem dnsChallengeFlow_mem {env : WorkflowEnv}
    {upd : List DnsTxtRecord → Except AcmeError Unit} {d t : Nat}
    {auths : List Authorization} {e : Event}
    (he : e ∈ (dnsChallengeFlow env upd d t auths).2) :
    (∃ tok, e = .getDnsRecordAnswer tok) ∨ (∃ rs, e = .updateDnsRecords rs) ∨
    (∃ n, e = .findAuthoritativeNameServerIps n) ∨
    (∃ n c, e = .pollDnsTxtRecord n c t) ∨ e = .sleep d ∨
    (∃ tok, e = .submit tok) := by
  have hfetMem : ∀ {chs : List AcmeChallenge} {res fetchTr},
      allSeq (chs.map fun c => call (.getDnsRecordAnswer c.token) c.dnsAnswer) =
        (res, fetchTr) → e ∈ fetchTr → ∃ tok, e = .getDnsRecordAnswer tok := by
    intro chs res fetchTr hfet hin
    have hm : e ∈ (allSeq (chs.map fun c =>
        call (.getDnsRecordAnswer c.token) c.dnsAnswer)).2 := by
      rw [hfet]; exact hin
    obtain ⟨c, -, rfl⟩ := allSeq_map_call_mem hm
    exact ⟨c.token, rfl⟩
  have hconfMem : ∀ {recs : List DnsTxtRecord} {res confTr},
      allSeq (recs.map fun r => confirmDnsRecord env t r) = (res, confTr) →
      e ∈ confTr →
      (∃ n, e = .findAuthoritativeNameServerIps n) ∨
      (∃ n c, e = .pollDnsTxtRecord n c t) := by
    intro recs res confTr hconf hin
    have hm : e ∈ (allSeq (recs.map fun r => confirmDnsRecord env t r)).2 := by
      rw [hconf]; exact hin
    obtain ⟨x, hx, hex⟩ := allSeq_trace_mem hm
    obtain ⟨r, -, rfl⟩ := List.mem_map.1 hx
    rcases confirmDnsRecord_mem hex with h | h
    · exact .inl ⟨r.name, h⟩
    · exact .inr ⟨r.name, r.content, h⟩
  rcases dnsChallengeFlow_cases env upd d t auths with
    ⟨e1, hl, htr⟩ |
    ⟨chs, e1, fetchTr, hl, hfet, htr⟩ |
    ⟨chs, recs, fetchTr, e1, hl, hfet, hupd, htr⟩ |
    ⟨chs, recs, fetchTr, e1, confTr, hl, hfet, hupd, hconf, htr⟩ |
    ⟨chs, recs, fetchTr, us, confTr, subTr, hl, hfet, hupd, hconf, hsub, htr⟩
  · rw [htr] at he
    simp at he
  · rw [htr] at he
    exact .inl (hfetMem hfet he)
  · rw [htr] at he
    rcases List.mem_append.1 he with h | h
    · exact .inl (hfetMem hfet h)
    · exact .inr (.inl ⟨recs, List.mem_singleton.1 h⟩)
  · rw [htr] at he
    rcases List.mem_append.1 he with h | h
    · rcases List.mem_append.1 h with h2 | h2
      · exact .inl (hfetMem hfet h2)
      · exact .inr (.inl ⟨recs, List.mem_singleton.1 h2⟩)
    · rcases hconfMem hconf h with h2 | h2
      · exact .inr (.inr (.inl h2))
      · exact .inr (.inr (.inr (.inl h2)))
  · rw [htr] at he
    rcases List.mem_append.1 he with h | h
    · rcases List.mem_append.1 h with h2 | h2
      · rcases List.mem_append.1 h2 with h3 | h3
        · rcases List.mem_append.1 h3 with h4 | h4
          · exact .inl (hfetMem hfet h4)
          · exact .inr (.inl ⟨recs, List.mem_singleton.1 h4⟩)
        · rcases hconfMem hconf h3 with h4 | h4
          · exact .inr (.inr (.inl h4))
          · exact .inr (.inr (.inr (.inl h4)))
      · exact .inr (.inr (.inr (.inr (.inl (List.mem_singleton.1 h2)))))
    · have hm : e ∈ (allSeq (chs.map fun c =>
          call (.submit c.token) c.submitResult)).2 := by
        rw [hsub]; exact h
      obtain ⟨c, -, rfl⟩ := allSeq_map_call_mem hm
      exact .inr (.inr (.inr (.inr (.inr ⟨c.token, rfl⟩))))

/-- Every event of the HTTP-01 flow's trace has one of the flow's three
shapes. -/
theorem httpChallengeFlow_mem
    {upd : List HttpResource → Except AcmeError Unit}
    {auths : List Authorization} {e : Event}
    (he : e ∈ (httpChallengeFlow upd auths).2) :
    (∃ tok, e = .getHttpResource tok) ∨ (∃ rs, e = .updateHttpResources rs) ∨
    (∃ tok, e = .submit tok) := by
  have hfetMem : ∀ {chs : List AcmeChallenge} {res fetchTr},
      allSeq (chs.map fun c => call (.getHttpResource c.token) c.httpResource) =
        (res, fetchTr) → e ∈ fetchTr → ∃ tok, e = .getHttpResource tok := by
    intro chs res fetchTr hfet hin
    have hm : e ∈ (allSeq (chs.map fun c =>
        call (.getHttpResource c.token) c.httpResource)).2 := by
      rw [hfet]; exact hin
    obtain ⟨c, -, rfl⟩ := allSeq_map_call_mem hm
    exact ⟨c.token, rfl⟩
  rcases httpChallengeFlow_cases upd auths with
    ⟨e1, hl, htr⟩ |
    ⟨chs, e1, fetchTr, hl, hfet, htr⟩ |
    ⟨chs, recs, fetchTr, e1, hl, hfet, hupd, htr⟩ |
    ⟨chs, recs, fetchTr, subTr, hl, hfet, hupd, hsub, htr⟩
  · rw [htr] at he
    simp at he
  · rw [htr] at he
    exact .inl (hfetMem hfet he)
  · rw [htr] at he
    rcases List.mem_append.1 he with h | h
    · exact .inl (hfetMem hfet h)
    · exact .inr (.inl ⟨recs, List.mem_singleton.1 h⟩)
  · rw [htr] at he
    rcases List.mem_append.1 he with h | h
    · rcases List.mem_append.1 h with h2 | h2
      · exact .inl (hfetMem hfet h2)
      · exact .inr (.inl ⟨recs, List.mem_singleton.1 h2⟩)
    · have hm : e ∈ (allSeq (chs.map fun c =>
          call (.submit c.token) c.submitResult)).2 := by
        rw [hsub]; exact h
      obtain ⟨c, -, rfl⟩ := allSeq_map_call_mem hm
      exact .inr (.inr ⟨c.token, rfl⟩)

/-- Every event of the challenge phase has one of the two flows' shapes. -/
theorem challengePhase_mem {cfg : RequestCertificatesConfig}
    {env : WorkflowEnv} {d t : Nat} {auths : List Authorization} {e : Event}
    (he : e ∈ (challengePhase cfg env d t auths).2) :
    (∃ tok, e = .getDnsRecordAnswer tok) ∨ (∃ rs, e = .updateDnsRecords rs) ∨
    (∃ n, e = .findAuthoritativeNameServerIps n) ∨
    (∃ n c, e = .pollDnsTxtRecord n c t) ∨ e = .sleep d ∨
    (∃ tok, e = .submit tok) ∨
    (∃ tok, e = .getHttpResource tok) ∨ (∃ rs, e = .updateHttpResources rs) := by
  rw [challengePhase] at he
  rcases hd : cfg.updateDnsRecords with _ | upd
  · rw [hd] at he
    rcases hh : cfg.updateHttpResources with _ | upd
    · rw [hh] at he
      simp at he
    · rw [hh] at he
      rcases httpChallengeFlow_mem he with h | h | h
      · exact .inr (.inr (.inr (.inr (.inr (.inr (.inl h))))))
      · exact .inr (.inr (.inr (.inr (.inr (.inr (.inr h))))))
      · exact .inr (.inr (.inr (.inr (.inr (.inl h)))))
  · rw [hd] at he
    rcases dnsChallengeFlow_mem he with h | h | h | h | h | h
    · exact .inl h
    · exact .inr (.inl h)
    · exact .inr (.inr (.inl h))
    · exact .inr (.inr (.inr (.inl h)))
    · exact .inr (.inr (.inr (.inr (.inl h))))
    · exact .inr (.inr (.inr (.inr (.inr (.inl h)))))

theorem wf_bind_snd_mem {α β : Type} {x : Wf α} {f : α → Wf β} {e : Event}
    (he : e ∈ (Wf.bind x f).2) :
    e ∈ x.2 ∨ ∃ a, x.1 = .ok a ∧ e ∈ (f a).2 := by
  rcases x with ⟨r, tr⟩
  rcases r with e' | a
  · exact .inl he
  · simp only [wf_bind_mk_ok] at he
    rcases List.mem_append.1 he with h | h
    · exact .inl h
    · exact .inr ⟨a, rfl, h⟩

/-- Split of the DNS-01 flow's trace at the settle delay: everything before
the delay is neither a sleep nor a submission, and everything after it is a
submission. -/
theorem dnsChallengeFlow_split (env : WorkflowEnv)
    (upd : List DnsTxtRecord → Except AcmeError Unit) (d t : Nat)
    (auths : List Authorization) :
    ∃ u1 u2 u3, (dnsChallengeFlow env upd d t auths).2 = u1 ++ u2 ++ u3 ∧
      (∀ e ∈ u1, e.isSleepEv = false ∧ e.isSubmitEv = false) ∧
      (∀ e ∈ u2, e = .sleep d) ∧
      (∀ e ∈ u3, e.isSubmitEv = true) := by
  have hfetMem : ∀ {chs : List AcmeChallenge} {res fetchTr} {e : Event},
      allSeq (chs.map fun c => call (.getDnsRecordAnswer c.token) c.dnsAnswer) =
        (res, fetchTr) → e ∈ fetchTr →
      e.isSleepEv = false ∧ e.isSubmitEv = false := by
    intro chs res fetchTr e hfet hin
    have hm : e ∈ (allSeq (chs.map fun c =>
        call (.getDnsRecordAnswer c.token) c.dnsAnswer)).2 := by
      rw [hfet]; exact hin
    obtain ⟨c, -, rfl⟩ := allSeq_map_call_mem hm
    exact ⟨rfl, rfl⟩
  have hconfMem : ∀ {recs : List DnsTxtRecord} {res confTr} {e : Event},
      allSeq (recs.map fun r => confirmDnsRecord env t r) = (res, confTr) →
      e ∈ confTr → e.isSleepEv = false ∧ e.isSubmitEv = false := by
    intro recs res confTr e hconf hin
    have hm : e ∈ (allSeq (recs.map fun r => confirmDnsRecord env t r)).2 := by
      rw [hconf]; exact hin
    obtain ⟨x, hx, hex⟩ := allSeq_trace_mem hm
    obtain ⟨r, -, rfl⟩ := List.mem_map.1 hx
    rcases confirmDnsRecord_mem hex with h | h <;> subst h <;> exact ⟨rfl, rfl⟩
  rcases dnsChallengeFlow_cases env upd d t auths with
    ⟨e1, hl, htr⟩ |
    ⟨chs, e1, fetchTr, hl, hfet, htr⟩ |
    ⟨chs, recs, fetchTr, e1, hl, hfet, hupd, htr⟩ |
    ⟨chs, recs, fetchTr, e1, confTr, hl, hfet, hupd, hconf, htr⟩ |
    ⟨chs, recs, fetchTr, us, confTr, subTr, hl, hfet, hupd, hconf, hsub, htr⟩
  · exact ⟨[], [], [], by simp [htr], by simp, by simp, by simp⟩
  · refine ⟨fetchTr, [], [], by simp [htr], ?_, by simp, by simp⟩
    intro e he
    exact hfetMem hfet he
  · refine ⟨fetchTr ++ [.updateDnsRecords recs], [], [], by simp [htr], ?_, by simp, by simp⟩
    intro e he
    rcases List.mem_append.1 he with h | h
    · exact hfetMem hfet h
    · rw [List.mem_singleton.1 h]
      exact ⟨rfl, rfl⟩
  · refine ⟨fetchTr ++ [.updateDnsRecords recs] ++ confTr, [], [],
      by simp [htr], ?_, by simp, by simp⟩
    intro e he
    rcases List.mem_append.1 he with h | h
    · rcases List.mem_append.1 h with h2 | h2
      · exact hfetMem hfet h2
      · rw [List.mem_singleton.1 h2]
        exact ⟨rfl, rfl⟩
    · exact hconfMem hconf h
  · refine ⟨fetchTr ++ [.updateDnsRecords recs] ++ confTr, [.sleep d], subTr,
      ?_, ?_, by simp, ?_⟩
    · simp [htr, List.append_assoc]
    · intro e he
      rcases List.mem_append.1 he with h | h
      · rcases List.mem_append.1 h with h2 | h2
        · exact hfetMem hfet h2
        · rw [List.mem_singleton.1 h2]
          exact ⟨rfl, rfl⟩
      · exact hconfMem hconf h
    · intro e he
      have hm : e ∈ (allSeq (chs.map fun c =>
          call (.submit c.token) c.submitResult)).2 := by
        rw [hsub]; exact he
      obtain ⟨c, -, rfl⟩ := allSeq_map_call_mem hm
      rfl

/-- Split of the HTTP-01 flow's trace at the submission boundary. -/
theorem httpChallengeFlow_split
    (upd : List HttpResource → Except AcmeError Unit)
    (auths : List Authorization) :
    ∃ u1 u3, (httpChallengeFlow upd auths).2 = u1 ++ u3 ∧
      (∀ e ∈ u1, e.isSleepEv = false ∧ e.isSubmitEv = false) ∧
      (∀ e ∈ u3, e.isSubmitEv = true) := by
  have hfetMem : ∀ {chs : List AcmeChallenge} {res fetchTr} {e : Event},
      allSeq (chs.map fun c => call (.getHttpResource c.token) c.httpResource) =
        (res, fetchTr) → e ∈ fetchTr →
      e.isSleepEv = false ∧ e.isSubmitEv = false := by
    intro chs res fetchTr e hfet hin
    have hm : e ∈ (allSeq (chs.map fun c =>
        call (.getHttpResource c.token) c.httpResource)).2 := by
      rw [hfet]; exact hin
    obtain ⟨c, -, rfl⟩ := allSeq_map_call_mem hm
    exact ⟨rfl, rfl⟩
  rcases httpChallengeFlow_cases upd auths with
    ⟨e1, hl, htr⟩ |
    ⟨chs, e1, fetchTr, hl, hfet, htr⟩ |
    ⟨chs, recs, fetchTr, e1, hl, hfet, hupd, htr⟩ |
    ⟨chs, recs, fetchTr, subTr, hl, hfet, hupd, hsub, htr⟩
  · exact ⟨[], [], by simp [htr], by simp, by simp⟩
  · refine ⟨fetchTr, [], by simp [htr], ?_, by simp⟩
    intro e he
    exact hfetMem hfet he
  · refine ⟨fetchTr ++ [.updateHttpResources recs], [], by simp [htr], ?_, by simp⟩
    intro e he
    rcases List.mem_append.1 he with h | h
    · exact hfetMem hfet h
    · rw [List.mem_singleton.1 h]
      exact ⟨rfl, rfl⟩
  · refine ⟨fetchTr ++ [.updateHttpResources recs], subTr, by rw [htr], ?_, ?_⟩
    · intro e he
      rcases List.mem_append.1 he with h | h
      · exact hfetMem hfet h
      · rw [List.mem_singleton.1 h]
        exact ⟨rfl, rfl⟩
    · intro e he
      have hm : e ∈ (allSeq (chs.map fun c =>
          call (.submit c.token) c.submitResult)).2 := by
        rw [hsub]; exact he
      obtain ⟨c, -, rfl⟩ := allSeq_map_call_mem hm
      rfl

/-- Split of the challenge phase's trace at the settle delay. -/
theorem challengePhase_split (cfg : RequestCertificatesConfig)
    (env : WorkflowEnv) (d t : Nat) (auths : List Authorization) :
    ∃ u1 u2 u3, (challengePhase cfg env d t auths).2 = u1 ++ u2 ++ u3 ∧
      (∀ e ∈ u1, e.isSleepEv = false ∧ e.isSubmitEv = false) ∧
      (∀ e ∈ u2, e = .sleep d) ∧
      (∀ e ∈ u3, e.isSubmitEv = true) := by
  rw [challengePhase]
  rcases cfg.updateDnsRecords with _ | upd
  · rcases cfg.updateHttpResources with _ | upd
    · exact ⟨[], [], [], rfl, by simp, by simp, by simp⟩
    · obtain ⟨u1, u3, htr, h1, h3⟩ := httpChallengeFlow_split upd auths
      exact ⟨u1, [], u3, by simp [htr], h1, by simp, h3⟩
  · exact dnsChallengeFlow_split env upd d t auths

theorem submit_not_pollTxt_sleep {e : Event} (h : e.isSubmitEv = true) :
    e.isPollTxtEv = false ∧ e.isSleepEv = false := by
  cases e <;> first
    | exact ⟨rfl, rfl⟩
    | exact absurd h (by simp [Event.isSubmitEv])

/-- The whole workflow trace splits at the settle delay: before it no sleep
and no submission occurs, the middle is the settle delay, and after it no
DNS propagation confirmation and no further sleep occurs. -/
theorem requestCertificate_ordering_split (cfg : RequestCertificatesConfig)
    (env : WorkflowEnv) :
    ∃ t1 t2 t3, (requestCertificate cfg env).2 = t1 ++ t2 ++ t3 ∧
      (∀ e ∈ t1, e.isSleepEv = false ∧ e.isSubmitEv = false) ∧
      (∀ e ∈ t2, e.isSleepEv = true ∧ e.isPollTxtEv = false ∧
        e.isSubmitEv = false) ∧
      (∀ e ∈ t3, e.isPollTxtEv = false ∧ e.isSleepEv = false) := by
  rcases hc : env.createOrderResult with ec | auths
  · refine ⟨[.createOrder cfg.domains], [], [], ?_, ?_, by simp, by simp⟩
    · rw [requestCertificate_createFail hc]
      simp
    · intro e he
      rw [List.mem_singleton.1 he]
      exact ⟨rfl, rfl⟩
  · rcases hp : env.probeResult with ep | u
    · obtain ⟨u1, u2, u3, hch, h1, h2, h3⟩ := challengePhase_split cfg env
        (cfg.delayAfterDnsRecordsConfirmed.getD 5000)
        (cfg.timeout.getD 30000) auths
      have hrest : ∀ e ∈ (Wf.bind (call (.pollStatus "ready" (cfg.timeout.getD 30000))
          env.readyPollResult)
          (fun _ => finalizePhase env (cfg.timeout.getD 30000) auths)).2,
          e.isPollTxtEv = false ∧ e.isSleepEv = false := by
        intro e he
        rcases wf_bind_snd_mem he with h | ⟨a, -, h⟩
        · simp only [call_snd] at h
          rw [List.mem_singleton.1 h]
          exact ⟨rfl, rfl⟩
        · rcases finalizePhase_mem h with h4 | h4 | h4 <;> subst h4 <;> exact ⟨rfl, rfl⟩
      rw [requestCertificate_challenge hc hp]
      rcases hcp : challengePhase cfg env (cfg.delayAfterDnsRecordsConfirmed.getD 5000)
          (cfg.timeout.getD 30000) auths with ⟨rcp, chTr⟩
      rw [hcp] at hch
      simp only at hch
      subst hch
      rcases rcp with ecp | ucp
      · refine ⟨[.createOrder cfg.domains, .pollStatus "ready" 1] ++ u1, u2, u3,
          ?_, ?_, ?_, ?_⟩
        · simp [Wf.bind, List.append_assoc]
        · intro e he
          rcases List.mem_append.1 he with h | h
          · rcases List.mem_cons.1 h with h4 | h4
            · rw [h4]; exact ⟨rfl, rfl⟩
            · rw [List.mem_singleton.1 h4]; exact ⟨rfl, rfl⟩
          · exact h1 e h
        · intro e he
          rw [h2 e he]
          exact ⟨rfl, rfl, rfl⟩
        · intro e he
          exact submit_not_pollTxt_sleep (h3 e he)
      · refine ⟨[.createOrder cfg.domains, .pollStatus "ready" 1] ++ u1, u2,
          u3 ++ (Wf.bind (call (.pollStatus "ready" (cfg.timeout.getD 30000))
            env.readyPollResult)
            (fun _ => finalizePhase env (cfg.timeout.getD 30000) auths)).2,
          ?_, ?_, ?_, ?_⟩
        · simp [Wf.bind, List.append_assoc]
        · intro e he
          rcases List.mem_append.1 he with h | h
          · rcases List.mem_cons.1 h with h4 | h4
            · rw [h4]; exact ⟨rfl, rfl⟩
            · rw [List.mem_singleton.1 h4]; exact ⟨rfl, rfl⟩
          · exact h1 e h
        · intro e he
          rw [h2 e he]
          exact ⟨rfl, rfl, rfl⟩
        · intro e he
          rcases List.mem_append.1 he with h | h
          · exact submit_not_pollTxt_sleep (h3 e h)
          · exact hrest e h
    · cases u
      refine ⟨[.createOrder cfg.domains, .pollStatus "ready" 1] ++
        (finalizePhase env (cfg.timeout.getD 30000) auths).2, [], [],
        ?_, ?_, by simp, by simp⟩
      · rw [requestCertificate_fast hc hp]
        simp
      · intro e he
        rcases List.mem_append.1 he with h | h
        · rcases List.mem_cons.1 h with h4 | h4
          · rw [h4]; exact ⟨rfl, rfl⟩
          · rw [List.mem_singleton.1 h4]; exact ⟨rfl, rfl⟩
        · rcases finalizePhase_mem h with h4 | h4 | h4 <;> subst h4 <;> exact ⟨rfl, rfl⟩

theorem isReadyPollEv_valid (t : Nat) :
    Event.isReadyPollEv (.pollStatus "valid" t) = false := rfl

/-- The whole workflow trace splits at finalization: before the split no
finalize occurs, after it no `ready` poll occurs. -/
theorem requestCertificate_finalize_split (cfg : RequestCertificatesConfig)
    (env : WorkflowEnv) :
    ∃ s1 s2, (requestCertificate cfg env).2 = s1 ++ s2 ∧
      (∀ e ∈ s1, e.isFinalizeEv = false) ∧
      (∀ e ∈ s2, e.isReadyPollEv = false) := by
  rcases hc : env.createOrderResult with ec | auths
  · refine ⟨[.createOrder cfg.domains], [], ?_, ?_, by simp⟩
    · rw [requestCertificate_createFail hc]
      simp
    · intro e he
      rw [List.mem_singleton.1 he]
      rfl
  · have hfinTail : ∀ e ∈ (finalizePhase env (cfg.timeout.getD 30000) auths).2,
        Event.isReadyPollEv e = false := by
      intro e he
      rcases finalizePhase_mem he with h | h | h <;> subst h
      · rfl
      · exact isReadyPollEv_valid _
      · rfl
    rcases hp : env.probeResult with ep | u
    · rw [requestCertificate_challenge hc hp]
      rcases hcp : challengePhase cfg env (cfg.delayAfterDnsRecordsConfirmed.getD 5000)
          (cfg.timeout.getD 30000) auths with ⟨rcp, chTr⟩
      have hchMem : ∀ e ∈ chTr, Event.isFinalizeEv e = false := by
        intro e he
        have hm : e ∈ (challengePhase cfg env (cfg.delayAfterDnsRecordsConfirmed.getD 5000)
            (cfg.timeout.getD 30000) auths).2 := by
          rw [hcp]; exact he
        rcases challengePhase_mem hm with h | h | h | h | h | h | h | h
        · obtain ⟨tok, rfl⟩ := h; rfl
        · obtain ⟨rs, rfl⟩ := h; rfl
        · obtain ⟨n, rfl⟩ := h; rfl
        · obtain ⟨n, c, rfl⟩ := h; rfl
        · subst h; rfl
        · obtain ⟨tok, rfl⟩ := h; rfl
        · obtain ⟨tok, rfl⟩ := h; rfl
        · obtain ⟨rs, rfl⟩ := h; rfl
      rcases rcp with ecp | ucp
      · refine ⟨[.createOrder cfg.domains, .pollStatus "ready" 1] ++ chTr, [],
          ?_, ?_, by simp⟩
        · simp [Wf.bind]
        · intro e he
          rcases List.mem_append.1 he with h | h
          · rcases List.mem_cons.1 h with h4 | h4
            · rw [h4]; rfl
            · rw [List.mem_singleton.1 h4]; rfl
          · exact hchMem e h
      · rcases hrp : env.readyPollResult with er | u2
        · refine ⟨[.createOrder cfg.domains, .pollStatus "ready" 1] ++ chTr ++
            [.pollStatus "ready" (cfg.timeout.getD 30000)], [], ?_, ?_, by simp⟩
          · simp [Wf.bind, call, hrp, List.append_assoc]
          · intro e he
            rcases List.mem_append.1 he with h | h
            · rcases List.mem_append.1 h with h4 | h4
              · rcases List.mem_cons.1 h4 with h5 | h5
                · rw [h5]; rfl
                · rw [List.mem_singleton.1 h5]; rfl
              · exact hchMem e h4
            · rw [List.mem_singleton.1 h]; rfl
        · cases u2
          refine ⟨[.createOrder cfg.domains, .pollStatus "ready" 1] ++ chTr ++
            [.pollStatus "ready" (cfg.timeout.getD 30000)],
            (finalizePhase env (cfg.timeout.getD 30000) auths).2, ?_, ?_, hfinTail⟩
          · simp [Wf.bind, call, hrp, List.append_assoc]
          · intro e he
            rcases List.mem_append.1 he with h | h
            · rcases List.mem_append.1 h with h4 | h4
              · rcases List.mem_cons.1 h4 with h5 | h5
                · rw [h5]; rfl
                · rw [List.mem_singleton.1 h5]; rfl
              · exact hchMem e h4
            · rw [List.mem_singleton.1 h]; rfl
    · cases u
      refine ⟨[.createOrder cfg.domains, .pollStatus "ready" 1],
        (finalizePhase env (cfg.timeout.getD 30000) auths).2, ?_, ?_, hfinTail⟩
      · rw [requestCertificate_fast hc hp]
      · intro e he
        rcases List.mem_cons.1 he with h4 | h4
        · rw [h4]; rfl
        · rw [List.mem_singleton.1 h4]; rfl

theorem allSeq_map_call_mem_pair {α β : Type} {l : List α} {evf : α → Event}
    {resf : α → Except AcmeError β} {res : Except AcmeError (List β)}
    {tr : List Event} {e : Event}
    (h : allSeq (l.map fun c => call (evf c) (resf c)) = (res, tr))
    (hin : e ∈ tr) : ∃ c ∈ l, e = evf c :=
  allSeq_map_call_mem (by rw [h]; exact hin)

theorem allSeq_confirm_mem_pair {env : WorkflowEnv} {t : Nat}
    {recs : List DnsTxtRecord} {res : Except AcmeError (List Unit)}
    {tr : List Event} {e : Event}
    (h : allSeq (recs.map fun r => confirmDnsRecord env t r) = (res, tr))
    (hin : e ∈ tr) :
    (∃ n, e = .findAuthoritativeNameServerIps n) ∨
    (∃ n c, e = .pollDnsTxtRecord n c t) := by
  have hm : e ∈ (allSeq (recs.map fun r => confirmDnsRecord env t r)).2 := by
    rw [h]; exact hin
  obtain ⟨x, hx, hex⟩ := allSeq_trace_mem hm
  obtain ⟨r, -, rfl⟩ := List.mem_map.1 hx
  rcases confirmDnsRecord_mem hex with h2 | h2
  · exact .inl ⟨r.name, h2⟩
  · exact .inr ⟨r.name, r.content, h2⟩

/-- If any submission event occurs in the DNS-01 flow, then the settle delay
occurred, and the flow performed exactly one propagation confirmation per
authorization (so every expected record was confirmed). -/
theorem dnsChallengeFlow_submit_inv {env : WorkflowEnv}
    {upd : List DnsTxtRecord → Except AcmeError Unit} {d t : Nat}
    {auths : List Authorization} {tok : String}
    (he : (.submit tok) ∈ (dnsChallengeFlow env upd d t auths).2) :
    (.sleep d) ∈ (dnsChallengeFlow env upd d t auths).2 ∧
    (dnsChallengeFlow env upd d t auths).2.countP Event.isPollTxtEv =
      auths.length := by
  rcases dnsChallengeFlow_cases env upd d t auths with
    ⟨e1, hl, htr⟩ |
    ⟨chs, e1, fetchTr, hl, hfet, htr⟩ |
    ⟨chs, recs, fetchTr, e1, hl, hfet, hupd, htr⟩ |
    ⟨chs, recs, fetchTr, e1, confTr, hl, hfet, hupd, hconf, htr⟩ |
    ⟨chs, recs, fetchTr, us, confTr, subTr, hl, hfet, hupd, hconf, hsub, htr⟩
  · rw [htr] at he
    simp at he
  · rw [htr] at he
    obtain ⟨c, -, hc⟩ := allSeq_map_call_mem_pair hfet he
    simp at hc
  · rw [htr] at he
    rcases List.mem_append.1 he with h | h
    · obtain ⟨c, -, hc⟩ := allSeq_map_call_mem_pair hfet h
      simp at hc
    · simp at h
  · rw [htr] at he
    rcases List.mem_append.1 he with h | h
    · rcases List.mem_append.1 h with h2 | h2
      · obtain ⟨c, -, hc⟩ := allSeq_map_call_mem_pair hfet h2
        simp at hc
      · simp at h2
    · rcases allSeq_confirm_mem_pair hconf h with ⟨n, hc⟩ | ⟨n, c, hc⟩ <;> simp at hc
  · constructor
    · rw [htr]
      simp
    · rw [htr]
      have hfetZero : fetchTr.countP Event.isPollTxtEv = 0 := by
        refine List.countP_eq_zero.2 ?_
        intro a ha
        obtain ⟨c, -, rfl⟩ := allSeq_map_call_mem_pair hfet ha
        simp [Event.isPollTxtEv]
      have hsubZero : subTr.countP Event.isPollTxtEv = 0 := by
        refine List.countP_eq_zero.2 ?_
        intro a ha
        have hm : a ∈ (allSeq (chs.map fun c =>
            call (.submit c.token) c.submitResult)).2 := by
          rw [hsub]; exact ha
        obtain ⟨c, -, rfl⟩ := allSeq_map_call_mem hm
        simp [Event.isPollTxtEv]
      have hconfCount := allSeq_confirm_count hconf
      have hlen1 : auths.length = chs.length := (lookupDns01_ok hl).length_eq
      have hlen2 : chs.length = recs.length := (allSeq_ok_forall2 hfet).length_eq
      simp only [List.countP_append, hfetZero, hconfCount, hsubZero]
      simp [List.countP_cons, Event.isPollTxtEv, hlen1, hlen2]

/-- Top-level version of the submit inversion: any submission event in a
DNS-configured workflow run implies the settle delay occurred and the trace
holds exactly one propagation confirmation per authorization. -/
theorem requestCertificate_submit_inv {cfg : RequestCertificatesConfig}
    {env : WorkflowEnv} {upd : List DnsTxtRecord → Except AcmeError Unit}
    {tok : String}
    (hdns : cfg.updateDnsRecords = some upd)
    (he : (.submit tok) ∈ (requestCertificate cfg env).2) :
    (.sleep (cfg.delayAfterDnsRecordsConfirmed.getD 5000)) ∈
      (requestCertificate cfg env).2 ∧
    ∃ auths, env.createOrderResult = .ok auths ∧
      (requestCertificate cfg env).2.countP Event.isPollTxtEv =
        auths.length := by
  rcases hc : env.createOrderResult with ec | auths
  · rw [requestCertificate_createFail hc] at he ⊢
    simp at he
  · rcases hp : env.probeResult with ep | u
    · rw [requestCertificate_challenge hc hp] at he ⊢
      rcases hcp : challengePhase cfg env (cfg.delayAfterDnsRecordsConfirmed.getD 5000)
          (cfg.timeout.getD 30000) auths with ⟨rcp, chTr⟩
      have hflow : dnsChallengeFlow env upd (cfg.delayAfterDnsRecordsConfirmed.getD 5000)
          (cfg.timeout.getD 30000) auths = (rcp, chTr) := by
        rw [← hcp, challengePhase, hdns]
      have hchTr : chTr = (dnsChallengeFlow env upd
          (cfg.delayAfterDnsRecordsConfirmed.getD 5000)
          (cfg.timeout.getD 30000) auths).2 := by
        rw [hflow]
      have hrestMem : ∀ e ∈ (Wf.bind (call (.pollStatus "ready" (cfg.timeout.getD 30000))
          env.readyPollResult)
          (fun _ => finalizePhase env (cfg.timeout.getD 30000) auths)).2,
          Event.isSubmitEv e = false ∧ Event.isPollTxtEv e = false := by
        intro e hee
        rcases wf_bind_snd_mem hee with h | ⟨a, -, h⟩
        · simp only [call_snd] at h
          rw [List.mem_singleton.1 h]
          exact ⟨rfl, rfl⟩
        · rcases finalizePhase_mem h with h4 | h4 | h4 <;> subst h4 <;> exact ⟨rfl, rfl⟩
      simp only [List.mem_append] at he
      rcases rcp with e2 | u2
      · have hXsnd : (Wf.bind (challengePhase cfg env
            (cfg.delayAfterDnsRecordsConfirmed.getD 5000)
            (cfg.timeout.getD 30000) auths) (fun _ =>
          Wf.bind (call (.pollStatus "ready" (cfg.timeout.getD 30000)) env.readyPollResult)
            (fun _ => finalizePhase env (cfg.timeout.getD 30000) auths))).2 = chTr := by
          rw [hcp]
          rfl
        have hsubChTr : (Event.submit tok) ∈ chTr := by
          rcases he with h | h
          · simp at h
          · rw [hXsnd] at h
            exact h
        rw [hchTr] at hsubChTr
        obtain ⟨hsleep, hcount⟩ := dnsChallengeFlow_submit_inv hsubChTr
        constructor
        · simp only [List.mem_append]
          refine .inr ?_
          show Event.sleep (cfg.delayAfterDnsRecordsConfirmed.getD 5000) ∈ chTr
          rw [hchTr]
          exact hsleep
        · refine ⟨auths, rfl, ?_⟩
          show List.countP Event.isPollTxtEv
            ([.createOrder cfg.domains, .pollStatus "ready" 1] ++ chTr) = auths.length
          rw [List.countP_append, hchTr, hcount]
          simp [List.countP_cons, Event.isPollTxtEv]
      · have hXsnd : (Wf.bind (challengePhase cfg env
            (cfg.delayAfterDnsRecordsConfirmed.getD 5000)
            (cfg.timeout.getD 30000) auths) (fun _ =>
          Wf.bind (call (.pollStatus "ready" (cfg.timeout.getD 30000)) env.readyPollResult)
            (fun _ => finalizePhase env (cfg.timeout.getD 30000) auths))).2 =
            chTr ++ (Wf.bind (call (.pollStatus "ready" (cfg.timeout.getD 30000))
              env.readyPollResult)
              (fun _ => finalizePhase env (cfg.timeout.getD 30000) auths)).2 := by
          rw [hcp]
          rfl
        have hsubChTr : (Event.submit tok) ∈ chTr := by
          rcases he with h | h
          · simp at h
          · rw [hXsnd] at h
            rcases List.mem_append.1 h with h2 | h2
            · exact h2
            · exact absurd (hrestMem _ h2).1 (by simp [Event.isSubmitEv])
        rw [hchTr] at hsubChTr
        obtain ⟨hsleep, hcount⟩ := dnsChallengeFlow_submit_inv hsubChTr
        have hrestZero : ((Wf.bind (call (.pollStatus "ready" (cfg.timeout.getD 30000))
            env.readyPollResult)
            (fun _ => finalizePhase env (cfg.timeout.getD 30000) auths)).2).countP
              Event.isPollTxtEv = 0 :=
          List.countP_eq_zero.2 (fun a ha => by simp [(hrestMem a ha).2])
        constructor
        · simp only [List.mem_append]
          refine .inr ?_
          show Event.sleep (cfg.delayAfterDnsRecordsConfirmed.getD 5000) ∈
            chTr ++ (Wf.bind (call (.pollStatus "ready" (cfg.timeout.getD 30000))
              env.readyPollResult)
              (fun _ => finalizePhase env (cfg.timeout.getD 30000) auths)).2
          refine List.mem_append.2 (.inl ?_)
          rw [hchTr]
          exact hsleep
        · refine ⟨auths, rfl, ?_⟩
          show List.countP Event.isPollTxtEv
            ([.createOrder cfg.domains, .pollStatus "ready" 1] ++
              (chTr ++ (Wf.bind (call (.pollStatus "ready" (cfg.timeout.getD 30000))
                env.readyPollResult)
                (fun _ => finalizePhase env (cfg.timeout.getD 30000) auths)).2)) =
            auths.length
          rw [List.countP_append, List.countP_append, hrestZero, hchTr, hcount]
          simp [List.countP_cons, Event.isPollTxtEv]
    · cases u
      rw [requestCertificate_fast hc hp] at he
      simp only [List.mem_append] at he
      rcases he with h | h
      · simp at h
      · rcases finalizePhase_mem h with h4 | h4 | h4 <;> simp at h4

theorem forall2_mem_right {α β : Type} {R : α → β → Prop} {as : List α}
    {bs : List β} (h : List.Forall₂ R as bs) {b : β} (hb : b ∈ bs) :
    ∃ a ∈ as, R a b := by
  induction h with
  | nil => simp at hb
  | cons hr htail ih =>
    rcases List.mem_cons.1 hb with h2 | h2
    · subst h2
      exact ⟨_, List.mem_cons_self .., hr⟩
    · obtain ⟨a, ha, hR⟩ := ih h2
      exact ⟨a, List.mem_cons_of_mem _ ha, hR⟩

theorem allSeq_ok_of_forall {α β : Type} {l : List α} {f : α → Wf β}
    (h : ∀ a ∈ l, ∃ b, (f a).1 = .ok b) :
    ∃ bs tr, allSeq (l.map f) = (.ok bs, tr) := by
  induction l with
  | nil => exact ⟨[], [], rfl⟩
  | cons a as ih =>
    obtain ⟨b, hb⟩ := h a (List.mem_cons_self ..)
    obtain ⟨bs, tr, htr⟩ := ih (fun x hx => h x (List.mem_cons_of_mem _ hx))
    refine ⟨b :: bs, (f a).2 ++ tr, ?_⟩
    simp only [List.map_cons, allSeq, wf_bind_eq]
    rcases hfa : f a with ⟨rfa, trfa⟩
    rw [hfa] at hb
    simp only at hb
    subst hb
    simp [Wf.bind, htr]

/-- The records handed to `updateDnsRecords` pair up one-to-one with the
authorizations: the k-th record is the successfully fetched expected answer
of the k-th authorization's `dns-01` challenge. -/
theorem dnsChallengeFlow_update_inv {env : WorkflowEnv}
    {upd : List DnsTxtRecord → Except AcmeError Unit} {d t : Nat}
    {auths : List Authorization} {rs : List DnsTxtRecord}
    (he : (.updateDnsRecords rs) ∈ (dnsChallengeFlow env upd d t auths).2) :
    List.Forall₂ (fun a r => ∃ c, a.dns01 = some c ∧ c.dnsAnswer = .ok r)
      auths rs := by
  have compose : ∀ {chs : List AcmeChallenge} {fetchTr : List Event},
      lookupDns01Challenges auths = (.ok chs, []) →
      allSeq (chs.map fun c => call (.getDnsRecordAnswer c.token) c.dnsAnswer) =
        (.ok rs, fetchTr) →
      List.Forall₂ (fun a r => ∃ c, a.dns01 = some c ∧ c.dnsAnswer = .ok r)
        auths rs := by
    intro chs fetchTr hl hfet
    have h1 := lookupDns01_ok hl
    have h2 := allSeq_ok_forall2 hfet
    have h2a : List.Forall₂ (fun c r => c.dnsAnswer = .ok r) chs rs :=
      h2.imp (fun _ _ h => h)
    exact forall2_trans h1 h2a
  rcases dnsChallengeFlow_cases env upd d t auths with
    ⟨e1, hl, htr⟩ |
    ⟨chs, e1, fetchTr, hl, hfet, htr⟩ |
    ⟨chs, recs, fetchTr, e1, hl, hfet, hupd, htr⟩ |
    ⟨chs, recs, fetchTr, e1, confTr, hl, hfet, hupd, hconf, htr⟩ |
    ⟨chs, recs, fetchTr, us, confTr, subTr, hl, hfet, hupd, hconf, hsub, htr⟩
  · rw [htr] at he
    simp at he
  · rw [htr] at he
    obtain ⟨c, -, hc⟩ := allSeq_map_call_mem_pair hfet he
    simp at hc
  · rw [htr] at he
    rcases List.mem_append.1 he with h | h
    · obtain ⟨c, -, hc⟩ := allSeq_map_call_mem_pair hfet h
      simp at hc
    · have := List.mem_singleton.1 h
      cases Event.updateDnsRecords.inj this
      exact compose hl hfet
  · rw [htr] at he
    rcases List.mem_append.1 he with h | h
    · rcases List.mem_append.1 h with h2 | h2
      · obtain ⟨c, -, hc⟩ := allSeq_map_call_mem_pair hfet h2
        simp at hc
      · have := List.mem_singleton.1 h2
        cases Event.updateDnsRecords.inj this
        exact compose hl hfet
    · rcases allSeq_confirm_mem_pair hconf h with ⟨n, hc⟩ | ⟨n, c, hc⟩ <;> simp at hc
  · rw [htr] at he
    rcases List.mem_append.1 he with h | h
    · rcases List.mem_append.1 h with h2 | h2
      · rcases List.mem_append.1 h2 with h3 | h3
        · rcases List.mem_append.1 h3 with h4 | h4
          · obtain ⟨c, -, hc⟩ := allSeq_map_call_mem_pair hfet h4
            simp at hc
          · have := List.mem_singleton.1 h4
            cases Event.updateDnsRecords.inj this
            exact compose hl hfet
        · rcases allSeq_confirm_mem_pair hconf h3 with ⟨n, hc⟩ | ⟨n, c, hc⟩ <;>
            simp at hc
      · simp at h2
    · have hm : (Event.updateDnsRecords rs) ∈ (allSeq (chs.map fun c =>
          call (.submit c.token) c.submitResult)).2 := by
        rw [hsub]; exact h
      obtain ⟨c, -, hc⟩ := allSeq_map_call_mem hm
      simp at hc

/-- The resources handed to `updateHttpResources` pair up one-to-one with
the authorizations. -/
theorem httpChallengeFlow_update_inv
    {upd : List HttpResource → Except AcmeError Unit}
    {auths : List Authorization} {rs : List HttpResource}
    (he : (.updateHttpResources rs) ∈ (httpChallengeFlow upd auths).2) :
    List.Forall₂ (fun a r => ∃ c, a.http01 = some c ∧ c.httpResource = .ok r)
      auths rs := by
  have compose : ∀ {chs : List AcmeChallenge} {fetchTr : List Event},
      lookupHttp01Challenges auths = (.ok chs, []) →
      allSeq (chs.map fun c => call (.getHttpResource c.token) c.httpResource) =
        (.ok rs, fetchTr) →
      List.Forall₂ (fun a r => ∃ c, a.http01 = some c ∧ c.httpResource = .ok r)
        auths rs := by
    intro chs fetchTr hl hfet
    have h1 := lookupHttp01_ok hl
    have h2 := allSeq_ok_forall2 hfet
    have h2a : List.Forall₂ (fun c r => c.httpResource = .ok r) chs rs :=
      h2.imp (fun _ _ h => h)
    exact forall2_trans h1 h2a
  rcases httpChallengeFlow_cases upd auths with
    ⟨e1, hl, htr⟩ |
    ⟨chs, e1, fetchTr, hl, hfet, htr⟩ |
    ⟨chs, recs, fetchTr, e1, hl, hfet, hupd, htr⟩ |
    ⟨chs, recs, fetchTr, subTr, hl, hfet, hupd, hsub, htr⟩
  · rw [htr] at he
    simp at he
  · rw [htr] at he
    obtain ⟨c, -, hc⟩ := allSeq_map_call_mem_pair hfet he
    simp at hc
  · rw [htr] at he
    rcases List.mem_append.1 he with h | h
    · obtain ⟨c, -, hc⟩ := allSeq_map_call_mem_pair hfet h
      simp at hc
    · have := List.mem_singleton.1 h
      cases Event.updateHttpResources.inj this
      exact compose hl hfet
  · rw [htr] at he
    rcases List.mem_append.1 he with h | h
    · rcases List.mem_append.1 h with h2 | h2
      · obtain ⟨c, -, hc⟩ := allSeq_map_call_mem_pair hfet h2
        simp at hc
      · have := List.mem_singleton.1 h2
        cases Event.updateHttpResources.inj this
        exact compose hl hfet
    · have hm : (Event.updateHttpResources rs) ∈ (allSeq (chs.map fun c =>
          call (.submit c.token) c.submitResult)).2 := by
        rw [hsub]; exact h
      obtain ⟨c, -, hc⟩ := allSeq_map_call_mem hm
      simp at hc

theorem dnsChallengeFlow_update_count (env : WorkflowEnv)
    (upd : List DnsTxtRecord → Except AcmeError Unit) (d t : Nat)
    (auths : List Authorization) :
    (dnsChallengeFlow env upd d t auths).2.countP Event.isUpdateEv ≤ 1 := by
  have hfetZero : ∀ {chs : List AcmeChallenge} {res fetchTr},
      allSeq (chs.map fun c => call (.getDnsRecordAnswer c.token) c.dnsAnswer) =
        (res, fetchTr) → fetchTr.countP Event.isUpdateEv = 0 := by
    intro chs res fetchTr hfet
    refine List.countP_eq_zero.2 ?_
    intro a ha
    obtain ⟨c, -, rfl⟩ := allSeq_map_call_mem_pair hfet ha
    simp [Event.isUpdateEv]
  have hconfZero : ∀ {recs : List DnsTxtRecord} {res confTr},
      allSeq (recs.map fun r => confirmDnsRecord env t r) = (res, confTr) →
      confTr.countP Event.isUpdateEv = 0 := by
    intro recs res confTr hconf
    refine List.countP_eq_zero.2 ?_
    intro a ha
    rcases allSeq_confirm_mem_pair hconf ha with ⟨n, rfl⟩ | ⟨n, c, rfl⟩ <;>
      simp [Event.isUpdateEv]
  rcases dnsChallengeFlow_cases env upd d t auths with
    ⟨e1, hl, htr⟩ |
    ⟨chs, e1, fetchTr, hl, hfet, htr⟩ |
    ⟨chs, recs, fetchTr, e1, hl, hfet, hupd, htr⟩ |
    ⟨chs, recs, fetchTr, e1, confTr, hl, hfet, hupd, hconf, htr⟩ |
    ⟨chs, recs, fetchTr, us, confTr, subTr, hl, hfet, hupd, hconf, hsub, htr⟩
  · simp [htr]
  · rw [htr, hfetZero hfet]
    omega
  · rw [htr, List.countP_append, hfetZero hfet]
    simp [List.countP_cons, Event.isUpdateEv]
  · rw [htr, List.countP_append, List.countP_append, hfetZero hfet, hconfZero hconf]
    simp [List.countP_cons, Event.isUpdateEv]
  · have hsubZero : subTr.countP Event.isUpdateEv = 0 := by
      refine List.countP_eq_zero.2 ?_
      intro a ha
      have hm : a ∈ (allSeq (chs.map fun c =>
          call (.submit c.token) c.submitResult)).2 := by
        rw [hsub]; exact ha
      obtain ⟨c, -, rfl⟩ := allSeq_map_call_mem hm
      simp [Event.isUpdateEv]
    rw [htr]
    simp only [List.countP_append, hfetZero hfet, hconfZero hconf, hsubZero]
    simp [List.countP_cons, Event.isUpdateEv]

theorem httpChallengeFlow_update_count
    (upd : List HttpResource → Except AcmeError Unit)
    (auths : List Authorization) :
    (httpChallengeFlow upd auths).2.countP Event.isUpdateEv ≤ 1 := by
  have hfetZero : ∀ {chs : List AcmeChallenge} {res fetchTr},
      allSeq (chs.map fun c => call (.getHttpResource c.token) c.httpResource) =
        (res, fetchTr) → fetchTr.countP Event.isUpdateEv = 0 := by
    intro chs res fetchTr hfet
    refine List.countP_eq_zero.2 ?_
    intro a ha
    obtain ⟨c, -, rfl⟩ := allSeq_map_call_mem_pair hfet ha
    simp [Event.isUpdateEv]
  rcases httpChallengeFlow_cases upd auths with
    ⟨e1, hl, htr⟩ |
    ⟨chs, e1, fetchTr, hl, hfet, htr⟩ |
    ⟨chs, recs, fetchTr, e1, hl, hfet, hupd, htr⟩ |
    ⟨chs, recs, fetchTr, subTr, hl, hfet, hupd, hsub, htr⟩
  · simp [htr]
  · rw [htr, hfetZero hfet]
    omega
  · rw [htr, List.countP_append, hfetZero hfet]
    simp [List.countP_cons, Event.isUpdateEv]
  · have hsubZero : subTr.countP Event.isUpdateEv = 0 := by
      refine List.countP_eq_zero.2 ?_
      intro a ha
      have hm : a ∈ (allSeq (chs.map fun c =>
          call (.submit c.token) c.submitResult)).2 := by
        rw [hsub]; exact ha
      obtain ⟨c, -, rfl⟩ := allSeq_map_call_mem hm
      simp [Event.isUpdateEv]
    rw [htr]
    simp only [List.countP_append, hfetZero hfet, hsubZero]
    simp [List.countP_cons, Event.isUpdateEv]

theorem challengePhase_update_count (cfg : RequestCertificatesConfig)
    (env : WorkflowEnv) (d t : Nat) (auths : List Authorization) :
    (challengePhase cfg env d t auths).2.countP Event.isUpdateEv ≤ 1 := by
  rw [challengePhase]
  rcases cfg.updateDnsRecords with _ | upd
  · rcases cfg.updateHttpResources with _ | upd
    · simp
    · exact httpChallengeFlow_update_count upd auths
  · exact dnsChallengeFlow_update_count env upd d t auths

/-- The fulfillment callback is never invoked more than once in any run. -/
theorem requestCertificate_update_count (cfg : RequestCertificatesConfig)
    (env : WorkflowEnv) :
    (requestCertificate cfg env).2.countP Event.isUpdateEv ≤ 1 := by
  rcases hc : env.createOrderResult with ec | auths
  · rw [requestCertificate_createFail hc]
    simp [List.countP_cons, Event.isUpdateEv]
  · rcases hp : env.probeResult with ep | u
    · rw [requestCertificate_challenge hc hp]
      rcases hcp : challengePhase cfg env (cfg.delayAfterDnsRecordsConfirmed.getD 5000)
          (cfg.timeout.getD 30000) auths with ⟨rcp, chTr⟩
      have hch : chTr.countP Event.isUpdateEv ≤ 1 := by
        have := challengePhase_update_count cfg env
          (cfg.delayAfterDnsRecordsConfirmed.getD 5000) (cfg.timeout.getD 30000) auths
        rw [hcp] at this
        exact this
      have hrestZero : ∀ {restTr : List Event},
          (∀ e ∈ restTr, e = .pollStatus "ready" (cfg.timeout.getD 30000) ∨
            e = .finalize ∨ e = .pollStatus "valid" (cfg.timeout.getD 30000) ∨
            e = .getCertificate) →
          restTr.countP Event.isUpdateEv = 0 := by
        intro restTr hmem
        refine List.countP_eq_zero.2 ?_
        intro a ha
        rcases hmem a ha with h | h | h | h <;> subst h <;> simp [Event.isUpdateEv]
      rcases rcp with e2 | u2
      · show List.countP Event.isUpdateEv
          ([.createOrder cfg.domains, .pollStatus "ready" 1] ++ chTr) ≤ 1
        rw [List.countP_append]
        simp [List.countP_cons, Event.isUpdateEv]
        omega
      · show List.countP Event.isUpdateEv
          ([.createOrder cfg.domains, .pollStatus "ready" 1] ++
            (chTr ++ (Wf.bind (call (.pollStatus "ready" (cfg.timeout.getD 30000))
              env.readyPollResult)
              (fun _ => finalizePhase env (cfg.timeout.getD 30000) auths)).2)) ≤ 1
        rw [List.countP_append, List.countP_append]
        have hz : ((Wf.bind (call (.pollStatus "ready" (cfg.timeout.getD 30000))
            env.readyPollResult)
            (fun _ => finalizePhase env (cfg.timeout.getD 30000) auths)).2).countP
              Event.isUpdateEv = 0 := by
          refine hrestZero ?_
          intro e hee
          rcases wf_bind_snd_mem hee with h | ⟨a, -, h⟩
          · simp only [call_snd] at h
            exact .inl (List.mem_singleton.1 h)
          · rcases finalizePhase_mem h with h4 | h4 | h4
            · exact .inr (.inl h4)
            · exact .inr (.inr (.inl h4))
            · exact .inr (.inr (.inr h4))
        rw [hz]
        simp [List.countP_cons, Event.isUpdateEv]
        omega
    · cases u
      rw [requestCertificate_fast hc hp]
      have hz : ((finalizePhase env (cfg.timeout.getD 30000) auths).2).countP
          Event.isUpdateEv = 0 := by
        refine List.countP_eq_zero.2 ?_
        intro a ha
        rcases finalizePhase_mem ha with h | h | h <;> subst h <;> simp [Event.isUpdateEv]
      show List.countP Event.isUpdateEv
        ([.createOrder cfg.domains, .pollStatus "ready" 1] ++
          (finalizePhase env (cfg.timeout.getD 30000) auths).2) ≤ 1
      rw [List.countP_append, hz]
      simp [List.countP_cons, Event.isUpdateEv]

theorem wf_bind_snd_mem_left {α β : Type} {x : Wf α} {f : α → Wf β}
    {e : Event} (he : e ∈ x.2) : e ∈ (Wf.bind x f).2 := by
  rcases x with ⟨r, tr⟩
  rcases r with e' | a
  · exact he
  · simp only [wf_bind_mk_ok]
    exact List.mem_append.2 (.inl he)

theorem challengePhase_eq_dns {cfg : RequestCertificatesConfig}
    {env : WorkflowEnv} {d t : Nat} {auths : List Authorization}
    {upd : List DnsTxtRecord → Except AcmeError Unit}
    (hd : cfg.updateDnsRecords = some upd) :
    challengePhase cfg env d t auths = dnsChallengeFlow env upd d t auths := by
  rw [challengePhase, hd]

theorem challengePhase_eq_http {cfg : RequestCertificatesConfig}
    {env : WorkflowEnv} {d t : Nat} {auths : List Authorization}
    {upd : List HttpResource → Except AcmeError Unit}
    (hd : cfg.updateDnsRecords = none)
    (hh : cfg.updateHttpResources = some upd) :
    challengePhase cfg env d t auths = httpChallengeFlow upd auths := by
  rw [challengePhase, hd, hh]

theorem challengePhase_eq_pure {cfg : RequestCertificatesConfig}
    {env : WorkflowEnv} {d t : Nat} {auths : List Authorization}
    (hd : cfg.updateDnsRecords = none)
    (hh : cfg.updateHttpResources = none) :
    challengePhase cfg env d t auths = (.ok (), []) := by
  rw [challengePhase, hd, hh]
  rfl

/-- Every event of any workflow run is either a creation/poll event, a
challenge-phase event, or a finalization-tail event. -/
theorem requestCertificate_mem {cfg : RequestCertificatesConfig}
    {env : WorkflowEnv} {e : Event}
    (he : e ∈ (requestCertificate cfg env).2) :
    e = .createOrder cfg.domains ∨ e = .pollStatus "ready" 1 ∨
    (∃ auths, env.createOrderResult = .ok auths ∧
      e ∈ (challengePhase cfg env (cfg.delayAfterDnsRecordsConfirmed.getD 5000)
        (cfg.timeout.getD 30000) auths).2) ∨
    e = .pollStatus "ready" (cfg.timeout.getD 30000) ∨ e = .finalize ∨
    e = .pollStatus "valid" (cfg.timeout.getD 30000) ∨ e = .getCertificate := by
  rcases hc : env.createOrderResult with ec | auths
  · rw [requestCertificate_createFail hc] at he
    rcases List.mem_cons.1 he with h | h
    · exact .inl h
    · simp at h
  · rcases hp : env.probeResult with ep | u
    · rw [requestCertificate_challenge hc hp] at he
      simp only [List.mem_append] at he
      rcases he with h | h
      · rcases List.mem_cons.1 h with h4 | h4
        · exact .inl h4
        · exact .inr (.inl (List.mem_singleton.1 h4))
      · rcases wf_bind_snd_mem h with h2 | ⟨a, -, h2⟩
        · exact .inr (.inr (.inl ⟨auths, rfl, h2⟩))
        · rcases wf_bind_snd_mem h2 with h3 | ⟨b, -, h3⟩
          · simp only [call_snd] at h3
            exact .inr (.inr (.inr (.inl (List.mem_singleton.1 h3))))
          · rcases finalizePhase_mem h3 with h4 | h4 | h4
            · exact .inr (.inr (.inr (.inr (.inl h4))))
            · exact .inr (.inr (.inr (.inr (.inr (.inl h4)))))
            · exact .inr (.inr (.inr (.inr (.inr (.inr h4)))))
    · cases u
      rw [requestCertificate_fast hc hp] at he
      simp only [List.mem_append] at he
      rcases he with h | h
      · rcases List.mem_cons.1 h with h4 | h4
        · exact .inl h4
        · exact .inr (.inl (List.mem_singleton.1 h4))
      · rcases finalizePhase_mem h with h4 | h4 | h4
        · exact .inr (.inr (.inr (.inr (.inl h4))))
        · exact .inr (.inr (.inr (.inr (.inr (.inl h4)))))
        · exact .inr (.inr (.inr (.inr (.inr (.inr h4)))))

/-- If the DNS fulfillment callback was invoked with `rs`, then the order
was created, the DNS flow was selected, and `rs` pairs up exactly with the
authorizations' successfully fetched expected records. -/
theorem requestCertificate_updateDns_inv {cfg : RequestCertificatesConfig}
    {env : WorkflowEnv} {rs : List DnsTxtRecord}
    (he : (.updateDnsRecords rs) ∈ (requestCertificate cfg env).2) :
    ∃ auths upd, env.createOrderResult = .ok auths ∧
      cfg.updateDnsRecords = some upd ∧
      List.Forall₂ (fun a r => ∃ c, a.dns01 = some c ∧ c.dnsAnswer = .ok r)
        auths rs := by
  rcases requestCertificate_mem he with h | h | ⟨auths, hord, h⟩ | h | h | h | h
  · simp at h
  · simp at h
  · rcases hd : cfg.updateDnsRecords with _ | upd
    · rcases hh : cfg.updateHttpResources with _ | upd
      · rw [challengePhase_eq_pure hd hh] at h
        simp at h
      · rw [challengePhase_eq_http hd hh] at h
        rcases httpChallengeFlow_mem h with ⟨tok, hc2⟩ | ⟨rs2, hc2⟩ | ⟨tok, hc2⟩ <;>
          simp at hc2
    · rw [challengePhase_eq_dns hd] at h
      exact ⟨auths, upd, hord, rfl, dnsChallengeFlow_update_inv h⟩
  · simp at h
  · simp at h
  · simp at h
  · simp at h

/-- If the HTTP fulfillment callback was invoked with `rs`, then the order
was created, the HTTP flow was selected (so no DNS callback was supplied),
and `rs` pairs up exactly with the authorizations' successfully fetched
expected resources. -/
theorem requestCertificate_updateHttp_inv {cfg : RequestCertificatesConfig}
    {env : WorkflowEnv} {rs : List HttpResource}
    (he : (.updateHttpResources rs) ∈ (requestCertificate cfg env).2) :
    ∃ auths upd, env.createOrderResult = .ok auths ∧
      cfg.updateDnsRecords = none ∧
      cfg.updateHttpResources = some upd ∧
      List.Forall₂ (fun a r => ∃ c, a.http01 = some c ∧ c.httpResource = .ok r)
        auths rs := by
  rcases requestCertificate_mem he with h | h | ⟨auths, hord, h⟩ | h | h | h | h
  · simp at h
  · simp at h
  · rcases hd : cfg.updateDnsRecords with _ | upd
    · rcases hh : cfg.updateHttpResources with _ | upd
      · rw [challengePhase_eq_pure hd hh] at h
        simp at h
      · rw [challengePhase_eq_http hd hh] at h
        exact ⟨auths, upd, hord, rfl, rfl, httpChallengeFlow_update_inv h⟩
    · rw [challengePhase_eq_dns hd] at h
      rcases dnsChallengeFlow_mem h with
        ⟨tok, hc2⟩ | ⟨rs2, hc2⟩ | ⟨n, hc2⟩ | ⟨n, c, hc2⟩ | hc2 | ⟨tok, hc2⟩ <;>
        simp at hc2
  · simp at h
  · simp at h
  · simp at h
  · simp at h

/-- If every authorization offers a `dns-01` challenge whose expected-record
fetch succeeds, the DNS flow reaches the callback invocation. -/
theorem dnsChallengeFlow_update_present (env : WorkflowEnv)
    (upd : List DnsTxtRecord → Except AcmeError Unit) (d t : Nat)
    (auths : List Authorization)
    (hall : ∀ a ∈ auths, ∃ c, a.dns01 = some c ∧ ∃ r, c.dnsAnswer = .ok r) :
    ∃ rs, (.updateDnsRecords rs) ∈ (dnsChallengeFlow env upd d t auths).2 ∧
      rs.length = auths.length := by
  obtain ⟨chs, hl⟩ := lookupDns01_ok_of_forall
    (fun a ha => (hall a ha).imp fun c h => h.1)
  have hf2 := lookupDns01_ok hl
  have hfetchOk : ∀ c ∈ chs, ∃ r,
      (call (.getDnsRecordAnswer c.token) c.dnsAnswer).1 = .ok r := by
    intro c hcin
    obtain ⟨a, ha, hac⟩ := forall2_mem_right hf2 hcin
    obtain ⟨c2, hc2, r, hr⟩ := hall a ha
    rw [hac] at hc2
    cases Option.some.inj hc2
    exact ⟨r, hr⟩
  obtain ⟨rs, fetchTr, hfet⟩ := allSeq_ok_of_forall hfetchOk
  refine ⟨rs, ?_, ?_⟩
  · rw [dnsChallengeFlow]
    simp only [wf_bind_eq]
    rw [hl]
    simp only [wf_bind_mk_ok, List.nil_append]
    rw [hfet]
    simp only [wf_bind_mk_ok]
    refine List.mem_append.2 (.inr ?_)
    rw [wf_bind_snd]
    refine List.mem_append.2 (.inl ?_)
    simp [call]
  · have hlen1 : auths.length = chs.length := hf2.length_eq
    have hlen2 : chs.length = rs.length := (allSeq_ok_forall2 hfet).length_eq
    omega

/-- Top-level version: in a DNS-configured run whose probe timed out, whose
order creation succeeded, and whose lookups and fetches all succeed, the
callback is invoked. -/
theorem requestCertificate_updateDns_present {cfg : RequestCertificatesConfig}
    {env : WorkflowEnv} {auths : List Authorization}
    {upd : List DnsTxtRecord → Except AcmeError Unit} {ep : AcmeError}
    (hd : cfg.updateDnsRecords = some upd)
    (hc : env.createOrderResult = .ok auths)
    (hp : env.probeResult = .error ep)
    (hall : ∀ a ∈ auths, ∃ c, a.dns01 = some c ∧ ∃ r, c.dnsAnswer = .ok r) :
    ∃ rs, (.updateDnsRecords rs) ∈ (requestCertificate cfg env).2 ∧
      rs.length = auths.length := by
  obtain ⟨rs, hmem, hlen⟩ := dnsChallengeFlow_update_present env upd
    (cfg.delayAfterDnsRecordsConfirmed.getD 5000) (cfg.timeout.getD 30000) auths hall
  refine ⟨rs, ?_, hlen⟩
  rw [requestCertificate_challenge hc hp]
  simp only [List.mem_append]
  refine .inr ?_
  refine wf_bind_snd_mem_left ?_
  rw [challengePhase_eq_dns hd]
  exact hmem

/-- With neither callback configured and a failed probe, the run is
create-order, probe, full-timeout `ready` poll, then the finalization
tail — no error of any kind is raised by the challenge phase itself. -/
theorem requestCertificate_noCallbacks {cfg : RequestCertificatesConfig}
    {env : WorkflowEnv} {auths : List Authorization} {ep : AcmeError}
    (hd : cfg.updateDnsRecords = none) (hh : cfg.updateHttpResources = none)
    (hc : env.createOrderResult = .ok auths)
    (hp : env.probeResult = .error ep) :
    requestCertificate cfg env =
      ((Wf.bind (call (.pollStatus "ready" (cfg.timeout.getD 30000))
          env.readyPollResult)
          (fun _ => finalizePhase env (cfg.timeout.getD 30000) auths)).1,
       [.createOrder cfg.domains, .pollStatus "ready" 1] ++
        (Wf.bind (call (.pollStatus "ready" (cfg.timeout.getD 30000))
          env.readyPollResult)
          (fun _ => finalizePhase env (cfg.timeout.getD 30000) auths)).2) := by
  rw [requestCertificate_challenge hc hp, challengePhase_eq_pure hd hh]
  rfl

/-- The missing-`dns-01` failure: the run stops right after the probe with
the error naming the first authorization that lacks the challenge, before
any further collaborator call. -/
theorem requestCertificate_missing_dns01 {cfg : RequestCertificatesConfig}
    {env : WorkflowEnv} {upd : List DnsTxtRecord → Except AcmeError Unit}
    {auths pre rest : List Authorization} {a : Authorization} {ep : AcmeError}
    (hd : cfg.updateDnsRecords = some upd)
    (hc : env.createOrderResult = .ok auths)
    (hp : env.probeResult = .error ep)
    (hsplit : auths = pre ++ a :: rest)
    (hpre : ∀ b ∈ pre, ∃ c, b.dns01 = some c)
    (ha : a.dns01 = none) :
    requestCertificate cfg env =
      (.error (.errMsg ("Cannot find dns01 challenge for authorization " ++
        stringifyAuthorization a ++ ".")),
       [.createOrder cfg.domains, .pollStatus "ready" 1]) := by
  subst hsplit
  rw [requestCertificate_challenge hc hp, challengePhase_eq_dns hd]
  rw [dnsChallengeFlow]
  simp only [wf_bind_eq]
  rw [lookupDns01_first_missing hpre ha]
  rfl

/-- DNS precedence: when the DNS callback is present the HTTP callback is
never consulted, so removing it does not change the run at all. -/
theorem requestCertificate_http_irrelevant {cfg : RequestCertificatesConfig}
    {env : WorkflowEnv} {upd : List DnsTxtRecord → Except AcmeError Unit}
    (hd : cfg.updateDnsRecords = some upd) :
    requestCertificate cfg env =
      requestCertificate { cfg with updateHttpResources := none } env := by
  rcases hc : env.createOrderResult with ec | auths
  · rw [requestCertificate_createFail hc,
        @requestCertificate_createFail { cfg with updateHttpResources := none } _ _ hc]
  · rcases hp : env.probeResult with ep | u
    · rw [requestCertificate_challenge hc hp,
          @requestCertificate_challenge { cfg with updateHttpResources := none } _ _ _ hc hp]
      rw [challengePhase_eq_dns hd,
          @challengePhase_eq_dns { cfg with updateHttpResources := none } _ _ _ _ _ hd]
    · cases u
      rw [requestCertificate_fast hc hp,
          @requestCertificate_fast { cfg with updateHttpResources := none } _ _ hc hp]

/-- Every probe exception is handled identically: a run whose probe fails
with any error equals the run of an otherwise identical environment whose
probe fails with a timeout. -/
theorem requestCertificate_probe_error_irrelevant
    {cfg : RequestCertificatesConfig} {env env2 : WorkflowEnv} {e : AcmeError}
    (hp : env.probeResult = .error e)
    (hp2 : env2.probeResult = .error .timeout)
    (hco : env2.createOrderResult = env.createOrderResult)
    (hrdy : env2.readyPollResult = env.readyPollResult)
    (hvld : env2.validPollResult = env.validPollResult)
    (hfns : env2.findNameServerIps = env.findNameServerIps)
    (hpoll : env2.pollDnsTxt = env.pollDnsTxt)
    (hfin : env2.finalizeResult = env.finalizeResult)
    (hcert : env2.certificateResult = env.certificateResult) :
    requestCertificate cfg env = requestCertificate cfg env2 := by
  obtain ⟨c1, p1, r1, v1, f1, q1, g1, t1⟩ := env
  obtain ⟨c2, p2, r2, v2, f2, q2, g2, t2⟩ := env2
  simp only at hp hp2 hco hrdy hvld hfns hpoll hfin hcert
  subst hp hp2 hco hrdy hvld hfns hpoll hfin hcert
  rw [requestCertificate, requestCertificate]
  rw [probeReadiness_error (e := e) rfl,
      probeReadiness_error (e := AcmeError.timeout) rfl]
  rfl

/-- Inversion of a successful finalization tail: each of the three
collaborator calls succeeded and the returned record is assembled from their
results. -/
theorem finalizePhase_ok_inv {env : WorkflowEnv} {t : Nat}
    {auths : List Authorization} {out : RequestCertificateResult}
    {tr : List Event}
    (h : finalizePhase env t auths = (.ok out, tr)) :
    env.finalizeResult = .ok out.certKeyPair ∧
    env.validPollResult = .ok () ∧
    env.certificateResult = .ok out.certificate ∧
    out.acmeOrderAuthorizations = auths ∧
    tr = [.finalize, .pollStatus "valid" t, .getCertificate] := by
  rw [finalizePhase] at h
  simp only [wf_bind_eq] at h
  rcases hf : env.finalizeResult with e | kp
  · rw [show (call Event.finalize env.finalizeResult) =
        ((.error e : Except AcmeError CryptoKeyPair), [.finalize]) by rw [call, hf]] at h
    exact absurd (congrArg Prod.fst h) (by simp)
  · rw [show (call Event.finalize env.finalizeResult) =
        ((.ok kp : Except AcmeError CryptoKeyPair), [.finalize]) by rw [call, hf]] at h
    simp only [wf_bind_mk_ok] at h
    rcases hv : env.validPollResult with e | u
    · rw [show (call (Event.pollStatus "valid" t) env.validPollResult) =
          ((.error e : Except AcmeError Unit), [.pollStatus "valid" t])
          by rw [call, hv]] at h
      exact absurd (congrArg Prod.fst h) (by simp [Wf.bind])
    · cases u
      rw [show (call (Event.pollStatus "valid" t) env.validPollResult) =
          ((.ok () : Except AcmeError Unit), [.pollStatus "valid" t])
          by rw [call, hv]] at h
      simp only [wf_bind_mk_ok] at h
      rcases hg : env.certificateResult with e | s
      · rw [show (call Event.getCertificate env.certificateResult) =
            ((.error e : Except AcmeError String), [.getCertificate])
            by rw [call, hg]] at h
        exact absurd (congrArg Prod.fst h) (by simp [Wf.bind])
      · rw [show (call Event.getCertificate env.certificateResult) =
            ((.ok s : Except AcmeError String), [.getCertificate])
            by rw [call, hg]] at h
        simp only [wf_bind_mk_ok, wf_pure_eq] at h
        have h1 := congrArg Prod.fst h
        have h2 := congrArg Prod.snd h
        simp only at h1 h2
        cases Except.ok.inj h1
        exact ⟨rfl, rfl, rfl, rfl, h2.symm⟩

/-- When a challenge was required, the finalize call can only have happened
after the full-timeout `ready` poll resolved successfully. -/
theorem requestCertificate_finalize_requires_ready
    {cfg : RequestCertificatesConfig} {env : WorkflowEnv} {ep : AcmeError}
    (hp : env.probeResult = .error ep)
    (he : Event.finalize ∈ (requestCertificate cfg env).2) :
    env.readyPollResult = .ok () := by
  rcases hc : env.createOrderResult with ec | auths
  · rw [requestCertificate_createFail hc] at he
    simp at he
  · rw [requestCertificate_challenge hc hp] at he
    simp only [List.mem_append] at he
    rcases he with h | h
    · simp at h
    · rcases wf_bind_snd_mem h with h2 | ⟨a, -, h2⟩
      · have hm : Event.finalize ∈ (challengePhase cfg env
            (cfg.delayAfterDnsRecordsConfirmed.getD 5000)
            (cfg.timeout.getD 30000) auths).2 := h2
        rcases challengePhase_mem hm with
          ⟨tok, hx⟩ | ⟨rs, hx⟩ | ⟨n, hx⟩ | ⟨n, c, hx⟩ | hx | ⟨tok, hx⟩ | ⟨tok, hx⟩ | ⟨rs, hx⟩ <;>
          simp at hx
      · rcases wf_bind_snd_mem h2 with h3 | ⟨b, hb, h3⟩
        · simp only [call_snd] at h3
          simp at h3
        · simp only [call_fst] at hb
          cases b
          exact hb

/-! ### Inversion lemmas for the key utilities -/

@[simp] theorem except_bind_ok {ε α β : Type} (a : α) (f : α → Except ε β) :
    (Except.ok a >>= f) = f a := rfl

@[simp] theorem except_bind_error {ε α β : Type} (e : ε) (f : α → Except ε β) :
    ((Except.error e : Except ε α) >>= f) = .error e := rfl

theorem subtleImportKey_ok_inv {P : SubtleCrypto} {fmt : ImportFormat}
    {mat : KeyMaterial} {alg : AlgorithmProperties} {extractable : Bool}
    {usages : List KeyUsage} {k : CryptoKey}
    (h : subtleImportKey P fmt mat alg extractable usages = .ok k) :
    k.algorithm = alg ∧ k.extractable = extractable ∧ k.usages = usages ∧
    k.material = mat ∧ k.keyType = keyTypeOfImport fmt mat := by
  rw [subtleImportKey] at h
  rcases hrej : P.importReject fmt mat alg usages with _ | msg
  · rw [hrej] at h
    cases Except.ok.inj h
    exact ⟨rfl, rfl, rfl, rfl, rfl⟩
  · rw [hrej] at h
    cases h

theorem importKeyPairFromPemPrivateKey_ok_inv {P : SubtleCrypto}
    {ext : String → Except CryptoError (List Nat)} {pem : String}
    {alg : KeyPairAlgorithm} {kp : CryptoKeyPair}
    (h : importKeyPairFromPemPrivateKey P ext pem alg = .ok kp) :
    ∃ bytes jwk, ext pem = .ok bytes ∧
      subtleImportKey P .pkcs8 (.pkcs8Bytes bytes) (getAlgorithmProperties alg)
        true [.sign] = .ok kp.privateKey ∧
      subtleExportJwk P kp.privateKey = .ok jwk ∧
      subtleImportKey P .jwk (.jwkMaterial { jwk with d := none, key_ops := ["verify"] })
        (getAlgorithmProperties alg) true [.verify] = .ok kp.publicKey := by
  rw [importKeyPairFromPemPrivateKey] at h
  rcases hext : ext pem with e | bytes
  · rw [hext] at h
    simp at h
  · rw [hext] at h
    simp only [except_bind_ok] at h
    rcases hpk : subtleImportKey P .pkcs8 (.pkcs8Bytes bytes)
        (getAlgorithmProperties alg) true [.sign] with e | privKey
    · rw [hpk] at h
      simp at h
    · rw [hpk] at h
      simp only [except_bind_ok] at h
      rw [derivePublicKey] at h
      rcases hexp : subtleExportJwk P privKey with e | jwk
      · rw [hexp] at h
        simp at h
      · rw [hexp] at h
        simp only [except_bind_ok] at h
        rcases hpub : subtleImportKey P .jwk
            (.jwkMaterial { jwk with d := none, key_ops := ["verify"] })
            (getAlgorithmProperties alg) true [.verify] with e | pubKey
        · rw [hpub] at h
          simp at h
        · rw [hpub] at h
          simp only [except_bind_ok] at h
          cases Except.ok.inj h
          exact ⟨bytes, jwk, rfl, hpk, hexp, hpub⟩

theorem importKeyPairFromPemPrivateKey_error {P : SubtleCrypto}
    {ext : String → Except CryptoError (List Nat)} {pem : String}
    {alg : KeyPairAlgorithm} {e : CryptoError}
    (hext : ext pem = .error e) :
    importKeyPairFromPemPrivateKey P ext pem alg = .error e := by
  rw [importKeyPairFromPemPrivateKey, hext]
  rfl

theorem importHmacKey_ok_inv {P : SubtleCrypto}
    {dec : String → Except CryptoError (List Nat)} {s : String} {k : CryptoKey}
    (h : importHmacKey P dec s = .ok k) :
    k.extractable = false ∧ k.usages = [.sign, .verify] ∧
    k.algorithm = { name := "HMAC", hash := some "SHA-256" } := by
  rw [importHmacKey] at h
  rcases hdec : dec s with e | bytes
  · rw [hdec] at h
    simp at h
  · rw [hdec] at h
    simp only [except_bind_ok] at h
    obtain ⟨ha, he, hu, hm, ht⟩ := subtleImportKey_ok_inv h
    exact ⟨he, hu, ha⟩

/-! ### Concrete fixtures used by witness and counterexample theorems -/

/-- Expected TXT record for the first test domain. -/
def recA : DnsTxtRecord := { name := "_acme-challenge.alpha.example", content := "tokA" }

/-- Expected TXT record for the second test domain. -/
def recB : DnsTxtRecord := { name := "_acme-challenge.beta.example", content := "tokB" }

/-- A challenge whose remote calls all succeed (first domain). -/
def chA : AcmeChallenge :=
  { token := "chA"
    dnsAnswer := .ok recA
    httpResource := .ok { path := "/.well-known/acme-challenge/chA", content := "kaA" }
    submitResult := .ok () }

/-- A challenge whose remote calls all succeed (second domain). -/
def chB : AcmeChallenge :=
  { token := "chB"
    dnsAnswer := .ok recB
    httpResource := .ok { path := "/.well-known/acme-challenge/chB", content := "kaB" }
    submitResult := .ok () }

/-- Authorization for the first test domain, offering both challenge types. -/
def authA : Authorization :=
  { domain := "alpha.example", dns01 := some chA, http01 := some chA }

/-- Authorization for the second test domain, offering both challenge types. -/
def authB : Authorization :=
  { domain := "beta.example", dns01 := some chB, http01 := some chB }

/-- Authorization for the second test domain offering no `dns-01` challenge. -/
def authNoDns : Authorization :=
  { domain := "beta.example", dns01 := none, http01 := some chB }

/-- The certificate key pair the test environments hand back from `finalize`. -/
def certKp : CryptoKeyPair := generateKeyPair 0 .ec

/-- Environment in which the readiness probe times out and every later
collaborator call succeeds, for the order over the two test domains. -/
def envHappy : WorkflowEnv :=
  { createOrderResult := .ok [authA, authB]
    probeResult := .error .timeout
    readyPollResult := .ok ()
    validPollResult := .ok ()
    findNameServerIps := fun _ => .ok ["192.0.2.53"]
    pollDnsTxt := fun _ _ _ _ => .ok ()
    finalizeResult := .ok certKp
    certificateResult := .ok "PEMCERT" }

/-- `envHappy` with a probe that is already `ready` (fast path). -/
def envReady : WorkflowEnv :=
  { envHappy with probeResult := .ok () }

/-- `envHappy` with a probe raising a non-timeout exception. -/
def envBoom : WorkflowEnv :=
  { envHappy with probeResult := .error (.errMsg "connection reset") }

/-- `envHappy` with the full-timeout `ready` poll timing out as well. -/
def envNeverReady : WorkflowEnv :=
  { envHappy with readyPollResult := .error .timeout }

/-- A configuration selecting the DNS-01 flow whose callback always
succeeds. -/
def cfgDns : RequestCertificatesConfig :=
  { domains := ["alpha.example", "beta.example"]
    updateDnsRecords := some fun _ => .ok () }

/-- A configuration supplying both callbacks. -/
def cfgBoth : RequestCertificatesConfig :=
  { domains := ["alpha.example", "beta.example"]
    updateDnsRecords := some fun _ => .ok ()
    updateHttpResources := some fun _ => .ok () }

/-- A configuration supplying neither callback. -/
def cfgNone : RequestCertificatesConfig :=
  { domains := ["alpha.example", "beta.example"] }

/-- `envHappy` with an order whose second authorization offers no `dns-01`
challenge. -/
def envMissing : WorkflowEnv :=
  { envHappy with createOrderResult := .ok [authA, authNoDns] }

/-- A JWK standing for the decoded PKCS8 test key material. -/
def testJwkPriv : Jwk :=
  { kty := "EC"
    d := some "privScalar"
    key_ops := ["sign"]
    pubMembers := [("crv", "P-256"), ("x", "xCoord"), ("y", "yCoord")] }

/-- A provider that accepts every import. -/
def acceptAllProvider : SubtleCrypto :=
  { importReject := fun _ _ _ _ => none
    pkcs8ToJwk := fun _ => testJwkPriv
    rawToJwk := fun _ => { kty := "oct" }
    generatedToJwk := fun _ _ => { kty := "gen" } }

/-- A PEM extractor that recognises the test input. -/
def testExtract : String → Except CryptoError (List Nat) := fun s =>
  if s = "PEM" then .ok [48, 1, 2] else .error (.parseError "no pem object found")

/-- A base64url decoder that recognises the test input. -/
def testDecodeB64 : String → Except CryptoError (List Nat) := fun s =>
  if s = "c2VjcmV0" then .ok [115, 101, 99, 114, 101, 116]
  else .error (.parseError "invalid base64url")

/-- The key pair the test import produces. -/
def kpTest : CryptoKeyPair :=
  { privateKey :=
      { keyType := .priv
        algorithm := getAlgorithmProperties .ec
        extractable := true
        usages := [.sign]
        material := .pkcs8Bytes [48, 1, 2] }
    publicKey :=
      { keyType := .pub
        algorithm := getAlgorithmProperties .ec
        extractable := true
        usages := [.verify]
        material := .jwkMaterial { testJwkPriv with d := none, key_ops := ["verify"] } } }

/-- The key the test HMAC import produces. -/
def hmacKeyTest : CryptoKey :=
  { keyType := .secret
    algorithm := { name := "HMAC", hash := some "SHA-256" }
    extractable := false
    usages := [.sign, .verify]
    material := .rawBytes [115, 101, 99, 114, 101, 116] }

/-! ### Claim theorems -/

/-- C1 counterexample: the claim that a non-timeout exception from the
readiness probe propagates out of `requestCertificate` is false.  Here the
probe raises a generic connection error and the run nonetheless completes
successfully: the source's empty `catch(e) {}` swallows every exception. -/
theorem claim_C1_counterexample :
    envBoom.probeResult = .error (.errMsg "connection reset") ∧
    (requestCertificate cfgNone envBoom).1 =
      .ok { certificate := "PEMCERT", certKeyPair := certKp,
            acmeOrderAuthorizations := [authA, authB] } :=
  ⟨rfl, rfl⟩

/-- C1 (amended): the readiness probe's `try/catch` swallows every
exception, timeout or not, and treats each as the challenge-required
signal: a run whose probe fails with an arbitrary error is identical to the
run of the otherwise identical environment whose probe fails with a
timeout, so no probe exception ever propagates or influences the result. -/
theorem claim_C1 (cfg : RequestCertificatesConfig) (env env2 : WorkflowEnv)
    (e : AcmeError)
    (hp : env.probeResult = .error e)
    (hp2 : env2.probeResult = .error .timeout)
    (hco : env2.createOrderResult = env.createOrderResult)
    (hrdy : env2.readyPollResult = env.readyPollResult)
    (hvld : env2.validPollResult = env.validPollResult)
    (hfns : env2.findNameServerIps = env.findNameServerIps)
    (hpoll : env2.pollDnsTxt = env.pollDnsTxt)
    (hfin : env2.finalizeResult = env.finalizeResult)
    (hcert : env2.certificateResult = env.certificateResult) :
    requestCertificate cfg env = requestCertificate cfg env2 :=
  requestCertificate_probe_error_irrelevant hp hp2 hco hrdy hvld hfns hpoll hfin hcert

theorem claim_C1_witness :
    envBoom.probeResult = .error (.errMsg "connection reset") ∧
    envHappy.probeResult = .error .timeout ∧
    requestCertificate cfgNone envBoom = requestCertificate cfgNone envHappy :=
  ⟨rfl, rfl,
   claim_C1 cfgNone envBoom envHappy (.errMsg "connection reset")
     rfl rfl rfl rfl rfl rfl rfl rfl rfl⟩

/-- C2 counterexample: with a required challenge and neither callback
configured, `requestCertificate` does not fail with a configuration error:
it skips the challenge phase, runs the full-timeout `ready` poll, and fails
with that poll's timeout error (`AcmeError.timeout`, not the
`AcmeError.errMsg` kind that every workflow-raised error carries). -/
theorem claim_C2_counterexample :
    cfgNone.updateDnsRecords = none ∧ cfgNone.updateHttpResources = none ∧
    envNeverReady.probeResult = .error .timeout ∧
    requestCertificate cfgNone envNeverReady =
      (.error .timeout,
       [.createOrder ["alpha.example", "beta.example"],
        .pollStatus "ready" 1, .pollStatus "ready" 30000]) :=
  ⟨rfl, rfl, rfl, rfl⟩

/-- C2 (amended): if the readiness probe fails and neither callback is
supplied, the workflow raises no configuration error; it proceeds directly
to the full-timeout `ready` poll and, when that poll fails (in practice a
timeout, since no challenge was ever satisfied), the run fails with exactly
that poll's error. -/
theorem claim_C2 (cfg : RequestCertificatesConfig) (env : WorkflowEnv)
    (auths : List Authorization) (ep : AcmeError)
    (hd : cfg.updateDnsRecords = none) (hh : cfg.updateHttpResources = none)
    (hc : env.createOrderResult = .ok auths)
    (hp : env.probeResult = .error ep) :
    requestCertificate cfg env =
      ((Wf.bind (call (.pollStatus "ready" (cfg.timeout.getD 30000))
          env.readyPollResult)
          (fun _ => finalizePhase env (cfg.timeout.getD 30000) auths)).1,
       [.createOrder cfg.domains, .pollStatus "ready" 1] ++
        (Wf.bind (call (.pollStatus "ready" (cfg.timeout.getD 30000))
          env.readyPollResult)
          (fun _ => finalizePhase env (cfg.timeout.getD 30000) auths)).2) ∧
    (∀ er, env.readyPollResult = .error er →
      (requestCertificate cfg env).1 = .error er) := by
  have heq := requestCertificate_noCallbacks hd hh hc hp
  refine ⟨heq, ?_⟩
  intro er her
  rw [heq]
  simp only
  rw [show (call (.pollStatus "ready" (cfg.timeout.getD 30000)) env.readyPollResult) =
      ((.error er : Except AcmeError Unit),
        [.pollStatus "ready" (cfg.timeout.getD 30000)]) by rw [call, her]]
  rfl

theorem claim_C2_witness :
    cfgNone.updateDnsRecords = none ∧
    envNeverReady.readyPollResult = .error .timeout ∧
    (requestCertificate cfgNone envNeverReady).1 = .error .timeout :=
  ⟨rfl, rfl,
   (claim_C2 cfgNone envNeverReady [authA, authB] .timeout rfl rfl rfl rfl).2
     .timeout rfl⟩

/-- C3: in a DNS-configured run, every DNS propagation confirmation
strictly precedes the settle delay, the delay strictly precedes every
challenge submission (hence every confirmation precedes every submission);
every `ready` poll precedes every finalize call; moreover if any submission
occurred then the settle delay occurred and the trace holds exactly one
propagation confirmation per authorization (all records confirmed), and a
finalize after a required challenge implies the full `ready` poll
resolved. -/
theorem claim_C3 (cfg : RequestCertificatesConfig) (env : WorkflowEnv)
    (upd : List DnsTxtRecord → Except AcmeError Unit)
    (hdns : cfg.updateDnsRecords = some upd) :
    eventsPrecede Event.isPollTxtEv Event.isSleepEv (requestCertificate cfg env).2 ∧
    eventsPrecede Event.isSleepEv Event.isSubmitEv (requestCertificate cfg env).2 ∧
    eventsPrecede Event.isPollTxtEv Event.isSubmitEv (requestCertificate cfg env).2 ∧
    eventsPrecede Event.isReadyPollEv Event.isFinalizeEv (requestCertificate cfg env).2 ∧
    (∀ tok, (.submit tok) ∈ (requestCertificate cfg env).2 →
      (.sleep (cfg.delayAfterDnsRecordsConfirmed.getD 5000)) ∈
        (requestCertificate cfg env).2 ∧
      ∃ auths, env.createOrderResult = .ok auths ∧
        (requestCertificate cfg env).2.countP Event.isPollTxtEv = auths.length) ∧
    (∀ ep, env.probeResult = .error ep →
      Event.finalize ∈ (requestCertificate cfg env).2 →
      env.readyPollResult = .ok ()) := by
  obtain ⟨t1, t2, t3, htr, h1, h2, h3⟩ := requestCertificate_ordering_split cfg env
  obtain ⟨s1, s2, hs, hs1, hs2⟩ := requestCertificate_finalize_split cfg env
  refine ⟨?_, ?_, ?_, ?_, ?_, ?_⟩
  · have hsp : (requestCertificate cfg env).2 = t1 ++ (t2 ++ t3) := by
      rw [htr, List.append_assoc]
    refine eventsPrecede_of_split hsp ?_ ?_
    · intro e he
      exact (h1 e he).1
    · intro e he
      rcases List.mem_append.1 he with h | h
      · exact (h2 e h).2.1
      · exact (h3 e h).1
  · have hsp : (requestCertificate cfg env).2 = (t1 ++ t2) ++ t3 := by
      rw [htr]
    refine eventsPrecede_of_split hsp ?_ ?_
    · intro e he
      rcases List.mem_append.1 he with h | h
      · exact (h1 e h).2
      · exact (h2 e h).2.2
    · intro e he
      exact (h3 e he).2
  · have hsp : (requestCertificate cfg env).2 = (t1 ++ t2) ++ t3 := by
      rw [htr]
    refine eventsPrecede_of_split hsp ?_ ?_
    · intro e he
      rcases List.mem_append.1 he with h | h
      · exact (h1 e h).2
      · exact (h2 e h).2.2
    · intro e he
      exact (h3 e he).1
  · exact eventsPrecede_of_split hs hs1 hs2
  · intro tok htok
    exact requestCertificate_submit_inv hdns htok
  · intro ep hp hfin
    exact requestCertificate_finalize_requires_ready hp hfin

theorem claim_C3_witness :
    cfgDns.updateDnsRecords = some (fun _ => .ok ()) ∧
    (eventsPrecede Event.isPollTxtEv Event.isSleepEv
        (requestCertificate cfgDns envHappy).2 ∧
      eventsPrecede Event.isSleepEv Event.isSubmitEv
        (requestCertificate cfgDns envHappy).2 ∧
      eventsPrecede Event.isPollTxtEv Event.isSubmitEv
        (requestCertificate cfgDns envHappy).2 ∧
      eventsPrecede Event.isReadyPollEv Event.isFinalizeEv
        (requestCertificate cfgDns envHappy).2 ∧
      (∀ tok, (.submit tok) ∈ (requestCertificate cfgDns envHappy).2 →
        (.sleep (cfgDns.delayAfterDnsRecordsConfirmed.getD 5000)) ∈
          (requestCertificate cfgDns envHappy).2 ∧
        ∃ auths, envHappy.createOrderResult = .ok auths ∧
          (requestCertificate cfgDns envHappy).2.countP Event.isPollTxtEv =
            auths.length) ∧
      (∀ ep, envHappy.probeResult = .error ep →
        Event.finalize ∈ (requestCertificate cfgDns envHappy).2 →
        envHappy.readyPollResult = .ok ())) :=
  ⟨rfl, claim_C3 cfgDns envHappy (fun _ => .ok ()) rfl⟩

/-- C4: the fulfillment callback is invoked at most once per run; whenever
the DNS (resp. HTTP) callback is invoked, its argument pairs up one-to-one
with the order's authorizations, each entry being the successfully fetched
expected record (resp. resource) of that authorization's challenge — so no
partial list is ever passed, and any expected-answer fetch failure aborts
before the callback; and in a DNS-configured challenge-required run whose
lookups and fetches all succeed, the callback is invoked (exactly once,
with one record per authorization). -/
theorem claim_C4 (cfg : RequestCertificatesConfig) (env : WorkflowEnv) :
    (requestCertificate cfg env).2.countP Event.isUpdateEv ≤ 1 ∧
    (∀ rs, (.updateDnsRecords rs) ∈ (requestCertificate cfg env).2 →
      ∃ auths upd, env.createOrderResult = .ok auths ∧
        cfg.updateDnsRecords = some upd ∧
        List.Forall₂ (fun a r => ∃ c, a.dns01 = some c ∧ c.dnsAnswer = .ok r)
          auths rs) ∧
    (∀ rs, (.updateHttpResources rs) ∈ (requestCertificate cfg env).2 →
      ∃ auths upd, env.createOrderResult = .ok auths ∧
        cfg.updateDnsRecords = none ∧ cfg.updateHttpResources = some upd ∧
        List.Forall₂ (fun a r => ∃ c, a.http01 = some c ∧ c.httpResource = .ok r)
          auths rs) ∧
    (∀ upd, cfg.updateDnsRecords = some upd →
      ∀ auths, env.createOrderResult = .ok auths →
      ∀ ep, env.probeResult = .error ep →
      (∀ a ∈ auths, ∃ c, a.dns01 = some c ∧ ∃ r, c.dnsAnswer = .ok r) →
      ∃ rs, (.updateDnsRecords rs) ∈ (requestCertificate cfg env).2 ∧
        rs.length = auths.length) :=
  ⟨requestCertificate_update_count cfg env,
   fun _ h => requestCertificate_updateDns_inv h,
   fun _ h => requestCertificate_updateHttp_inv h,
   fun _ hd _ hc _ hp hall => requestCertificate_updateDns_present hd hc hp hall⟩

theorem claim_C4_witness :
    (requestCertificate cfgDns envHappy).2.countP Event.isUpdateEv ≤ 1 ∧
    ∃ rs, (.updateDnsRecords rs) ∈ (requestCertificate cfgDns envHappy).2 ∧
      rs.length = 2 := by
  have hall : ∀ a ∈ [authA, authB], ∃ c, a.dns01 = some c ∧
      ∃ r, c.dnsAnswer = .ok r := by
    intro a ha
    rcases List.mem_cons.1 ha with h | h
    · subst h
      exact ⟨chA, rfl, recA, rfl⟩
    · rw [List.mem_singleton.1 h]
      exact ⟨chB, rfl, recB, rfl⟩
  exact ⟨(claim_C4 cfgDns envHappy).1,
    (claim_C4 cfgDns envHappy).2.2.2 (fun _ => .ok ()) rfl [authA, authB] rfl
      .timeout rfl hall⟩

/-- C5: on the fast path (readiness probe succeeds) the run is exactly
create-order, probe, then the finalization tail — so neither callback is
invoked, no challenge is fetched or submitted — and a successful result
still carries the finalized key pair, the `valid` poll, and the retrieved
certificate in the returned record. -/
theorem claim_C5 (cfg : RequestCertificatesConfig) (env : WorkflowEnv)
    (auths : List Authorization)
    (hc : env.createOrderResult = .ok auths)
    (hp : env.probeResult = .ok ()) :
    requestCertificate cfg env =
      ((finalizePhase env (cfg.timeout.getD 30000) auths).1,
       [.createOrder cfg.domains, .pollStatus "ready" 1] ++
         (finalizePhase env (cfg.timeout.getD 30000) auths).2) ∧
    (∀ e ∈ (requestCertificate cfg env).2,
      e.isUpdateEv = false ∧ e.isSubmitEv = false ∧
      (∀ tok, e ≠ .getDnsRecordAnswer tok) ∧
      (∀ tok, e ≠ .getHttpResource tok)) ∧
    (∀ out, (requestCertificate cfg env).1 = .ok out →
      env.finalizeResult = .ok out.certKeyPair ∧
      env.certificateResult = .ok out.certificate ∧
      out.acmeOrderAuthorizations = auths ∧
      Event.finalize ∈ (requestCertificate cfg env).2 ∧
      (.pollStatus "valid" (cfg.timeout.getD 30000)) ∈
        (requestCertificate cfg env).2 ∧
      Event.getCertificate ∈ (requestCertificate cfg env).2) := by
  have heq := @requestCertificate_fast cfg env auths hc hp
  refine ⟨heq, ?_, ?_⟩
  · intro e he
    rw [heq] at he
    simp only [List.mem_append] at he
    rcases he with h | h
    · rcases List.mem_cons.1 h with h4 | h4
      · subst h4
        simp [Event.isUpdateEv, Event.isSubmitEv]
      · rw [List.mem_singleton.1 h4]
        simp [Event.isUpdateEv, Event.isSubmitEv]
    · rcases finalizePhase_mem h with h4 | h4 | h4 <;> subst h4 <;>
        simp [Event.isUpdateEv, Event.isSubmitEv]
  · intro out hout
    have hout2 : (finalizePhase env (cfg.timeout.getD 30000) auths).1 = .ok out := by
      rw [heq] at hout
      exact hout
    rcases hfp : finalizePhase env (cfg.timeout.getD 30000) auths with ⟨rf, ftr⟩
    rw [hfp] at hout2
    simp only at hout2
    subst hout2
    obtain ⟨h1, h2, h3, h4, h5⟩ := finalizePhase_ok_inv hfp
    refine ⟨h1, h3, h4, ?_, ?_, ?_⟩ <;>
      · rw [heq]
        simp only [List.mem_append]
        refine .inr ?_
        rw [show (finalizePhase env (cfg.timeout.getD 30000) auths).2 = ftr
          by rw [hfp]]
        rw [h5]
        simp

theorem claim_C5_witness :
    envReady.createOrderResult = .ok [authA, authB] ∧
    envReady.probeResult = .ok () ∧
    (∀ e ∈ (requestCertificate cfgDns envReady).2,
      e.isUpdateEv = false ∧ e.isSubmitEv = false ∧
      (∀ tok, e ≠ .getDnsRecordAnswer tok) ∧
      (∀ tok, e ≠ .getHttpResource tok)) :=
  ⟨rfl, rfl, (claim_C5 cfgDns envReady [authA, authB] rfl rfl).2.1⟩

/-- C6: when `updateDnsRecords` is configured and a challenge is required,
an authorization lacking a `dns-01` challenge makes the run stop right
after the probe with an error naming that authorization, and no `submit`
call is ever issued. -/
theorem claim_C6 (cfg : RequestCertificatesConfig) (env : WorkflowEnv)
    (upd : List DnsTxtRecord → Except AcmeError Unit)
    (auths pre rest : List Authorization) (a : Authorization) (ep : AcmeError)
    (hd : cfg.updateDnsRecords = some upd)
    (hc : env.createOrderResult = .ok auths)
    (hp : env.probeResult = .error ep)
    (hsplit : auths = pre ++ a :: rest)
    (hpre : ∀ b ∈ pre, ∃ c, b.dns01 = some c)
    (ha : a.dns01 = none) :
    requestCertificate cfg env =
      (.error (.errMsg ("Cannot find dns01 challenge for authorization " ++
        stringifyAuthorization a ++ ".")),
       [.createOrder cfg.domains, .pollStatus "ready" 1]) ∧
    ∀ tok, (.submit tok) ∉ (requestCertificate cfg env).2 := by
  have heq := requestCertificate_missing_dns01 hd hc hp hsplit hpre ha
  refine ⟨heq, ?_⟩
  intro tok hmem
  rw [heq] at hmem
  simp at hmem

theorem claim_C6_witness :
    envMissing.createOrderResult = .ok [authA, authNoDns] ∧
    authNoDns.dns01 = none ∧
    requestCertificate cfgDns envMissing =
      (.error (.errMsg ("Cannot find dns01 challenge for authorization " ++
        stringifyAuthorization authNoDns ++ ".")),
       [.createOrder ["alpha.example", "beta.example"], .pollStatus "ready" 1]) := by
  have hpre : ∀ b ∈ [authA], ∃ c, b.dns01 = some c := by
    intro b hb
    rw [List.mem_singleton.1 hb]
    exact ⟨chA, rfl⟩
  exact ⟨rfl, rfl,
    (claim_C6 cfgDns envMissing (fun _ => .ok ()) [authA, authNoDns] [authA] []
      authNoDns .timeout rfl rfl rfl rfl hpre rfl).1⟩

/-- C7: with both callbacks supplied, the DNS-01 flow takes precedence —
the run is identical to the run with the HTTP callback removed, the
challenge phase is exactly the DNS flow, and no HTTP-flow interaction
(resource fetch or HTTP callback) ever appears in the trace. -/
theorem claim_C7 (cfg : RequestCertificatesConfig) (env : WorkflowEnv)
    (upd : List DnsTxtRecord → Except AcmeError Unit)
    (upd2 : List HttpResource → Except AcmeError Unit)
    (hd : cfg.updateDnsRecords = some upd)
    (_hh : cfg.updateHttpResources = some upd2) :
    requestCertificate cfg env =
      requestCertificate { cfg with updateHttpResources := none } env ∧
    (∀ d t auths, challengePhase cfg env d t auths =
      dnsChallengeFlow env upd d t auths) ∧
    (∀ e ∈ (requestCertificate cfg env).2, e.isHttpFlowEv = false) := by
  refine ⟨requestCertificate_http_irrelevant hd,
    fun d t auths => challengePhase_eq_dns hd, ?_⟩
  intro e he
  rcases requestCertificate_mem he with h | h | ⟨auths, hord, h⟩ | h | h | h | h
  · subst h; rfl
  · subst h; rfl
  · rw [challengePhase_eq_dns hd] at h
    rcases dnsChallengeFlow_mem h with
      ⟨tok, hx⟩ | ⟨rs, hx⟩ | ⟨n, hx⟩ | ⟨n, c, hx⟩ | hx | ⟨tok, hx⟩ <;>
      subst hx <;> rfl
  · subst h; rfl
  · subst h; rfl
  · subst h; rfl
  · subst h; rfl

theorem claim_C7_witness :
    cfgBoth.updateDnsRecords = some (fun _ => .ok ()) ∧
    cfgBoth.updateHttpResources = some (fun _ => .ok ()) ∧
    requestCertificate cfgBoth envHappy =
      requestCertificate { cfgBoth with updateHttpResources := none } envHappy :=
  ⟨rfl, rfl,
   (claim_C7 cfgBoth envHappy (fun _ => .ok ()) (fun _ => .ok ()) rfl rfl).1⟩

/-- C8: the key algorithm registry is the total pure mapping sending `ec`
to ECDSA over P-256, `rsa` to RSASSA-PKCS1-v1_5 with a 2048-bit modulus,
public exponent 65537 (the byte array `[0x01, 0x00, 0x01]`) and SHA-256,
and `rsa-4096` to the same family with a 4096-bit modulus; it is injective
(no two variants share parameters); and `generateKeyPair` (whose algorithm
argument defaults to `ec`) generates under exactly the registry's
parameters for the requested algorithm an extractable pair with sign
capability on the private key and verify capability on the public key,
fresh in the sense that distinct provider entropy yields distinct pairs. -/
theorem claim_C8 :
    getAlgorithmProperties .ec = { name := "ECDSA", namedCurve := some "P-256" } ∧
    getAlgorithmProperties .rsa =
      { name := "RSASSA-PKCS1-v1_5", modulusLength := some 2048,
        publicExponent := some [0x01, 0x00, 0x01], hash := some "SHA-256" } ∧
    getAlgorithmProperties .rsa4096 =
      { name := "RSASSA-PKCS1-v1_5", modulusLength := some 4096,
        publicExponent := some [0x01, 0x00, 0x01], hash := some "SHA-256" } ∧
    bytesBE [0x01, 0x00, 0x01] = 65537 ∧
    (∀ a b : KeyPairAlgorithm,
      getAlgorithmProperties a = getAlgorithmProperties b → a = b) ∧
    (∀ fresh, generateKeyPair fresh = generateKeyPair fresh .ec) ∧
    (∀ fresh alg,
      (generateKeyPair fresh alg).privateKey.algorithm = getAlgorithmProperties alg ∧
      (generateKeyPair fresh alg).publicKey.algorithm = getAlgorithmProperties alg ∧
      (generateKeyPair fresh alg).privateKey.usages = [.sign] ∧
      (generateKeyPair fresh alg).publicKey.usages = [.verify] ∧
      (generateKeyPair fresh alg).privateKey.extractable = true ∧
      (generateKeyPair fresh alg).publicKey.extractable = true) ∧
    (∀ f1 f2 alg, f1 ≠ f2 → generateKeyPair f1 alg ≠ generateKeyPair f2 alg) := by
  refine ⟨rfl, rfl, rfl, rfl, ?_, fun fresh => rfl, ?_, ?_⟩
  · intro a b h
    cases a <;> cases b <;> first
      | rfl
      | exact absurd (congrArg AlgorithmProperties.name h) (by decide)
      | exact absurd (congrArg AlgorithmProperties.modulusLength h) (by decide)
  · intro fresh alg
    exact ⟨rfl, rfl, rfl, rfl, rfl, rfl⟩
  · intro f1 f2 alg hne heq
    have h2 := congrArg (fun kp => kp.privateKey.material) heq
    simp [generateKeyPair, subtleGenerateKey] at h2
    exact hne (by omega)

theorem claim_C8_witness :
    (0 : Nat) ≠ 1 ∧ generateKeyPair 0 .ec ≠ generateKeyPair 1 .ec :=
  ⟨by decide, claim_C8.2.2.2.2.2.2.2 0 1 .ec (by decide)⟩

/-- C9: a successful `importKeyPairFromPemPrivateKey` imported the first
PEM object's bytes as a PKCS8 private key with sign capability only
(extractable), and built the public key exactly by exporting that private
key as a JWK, discarding the private component `d`, forcing `key_ops` to
verify-only, and re-importing the result under the same registry
parameters as an extractable verify-only public key; and a PEM extraction
failure propagates as the import's error, so no partial pair is ever
returned. -/
theorem claim_C9 (P : SubtleCrypto)
    (ext : String → Except CryptoError (List Nat)) (pem : String)
    (alg : KeyPairAlgorithm) :
    (∀ kp, importKeyPairFromPemPrivateKey P ext pem alg = .ok kp →
      ∃ bytes jwk,
        ext pem = .ok bytes ∧
        subtleImportKey P .pkcs8 (.pkcs8Bytes bytes) (getAlgorithmProperties alg)
          true [.sign] = .ok kp.privateKey ∧
        kp.privateKey.usages = [.sign] ∧
        kp.privateKey.extractable = true ∧
        kp.privateKey.material = .pkcs8Bytes bytes ∧
        subtleExportJwk P kp.privateKey = .ok jwk ∧
        subtleImportKey P .jwk
          (.jwkMaterial { jwk with d := none, key_ops := ["verify"] })
          (getAlgorithmProperties alg) true [.verify] = .ok kp.publicKey ∧
        kp.publicKey.usages = [.verify] ∧
        kp.publicKey.extractable = true ∧
        kp.publicKey.material =
          .jwkMaterial { jwk with d := none, key_ops := ["verify"] } ∧
        kp.publicKey.algorithm = getAlgorithmProperties alg) ∧
    (∀ e, ext pem = .error e →
      importKeyPairFromPemPrivateKey P ext pem alg = .error e) := by
  constructor
  · intro kp h
    obtain ⟨bytes, jwk, hext, hpk, hexp, hpub⟩ :=
      importKeyPairFromPemPrivateKey_ok_inv h
    obtain ⟨ha1, he1, hu1, hm1, ht1⟩ := subtleImportKey_ok_inv hpk
    obtain ⟨ha2, he2, hu2, hm2, ht2⟩ := subtleImportKey_ok_inv hpub
    exact ⟨bytes, jwk, hext, hpk, hu1, he1, hm1, hexp, hpub, hu2, he2, hm2, ha2⟩
  · intro e he
    exact importKeyPairFromPemPrivateKey_error he

theorem claim_C9_witness :
    importKeyPairFromPemPrivateKey acceptAllProvider testExtract "PEM" .ec =
      .ok kpTest ∧
    ∃ bytes jwk,
      testExtract "PEM" = .ok bytes ∧
      subtleImportKey acceptAllProvider .pkcs8 (.pkcs8Bytes bytes)
        (getAlgorithmProperties .ec) true [.sign] = .ok kpTest.privateKey ∧
      kpTest.privateKey.usages = [.sign] ∧
      kpTest.privateKey.extractable = true ∧
      kpTest.privateKey.material = .pkcs8Bytes bytes ∧
      subtleExportJwk acceptAllProvider kpTest.privateKey = .ok jwk ∧
      subtleImportKey acceptAllProvider .jwk
        (.jwkMaterial { jwk with d := none, key_ops := ["verify"] })
        (getAlgorithmProperties .ec) true [.verify] = .ok kpTest.publicKey ∧
      kpTest.publicKey.usages = [.verify] ∧
      kpTest.publicKey.extractable = true ∧
      kpTest.publicKey.material =
        .jwkMaterial { jwk with d := none, key_ops := ["verify"] } ∧
      kpTest.publicKey.algorithm = getAlgorithmProperties .ec :=
  ⟨by decide,
   (claim_C9 acceptAllProvider testExtract "PEM" .ec).1 kpTest (by decide)⟩

/-- C10: `importHmacKey` always returns a non-extractable key, which the
provider therefore refuses to export, while `generateKeyPair` and
`importKeyPairFromPemPrivateKey` always return extractable keys (both the
imported private key and the derived public key). -/
theorem claim_C10 (P : SubtleCrypto)
    (dec : String → Except CryptoError (List Nat)) (s : String)
    (fresh : Nat) (alg : KeyPairAlgorithm)
    (ext : String → Except CryptoError (List Nat)) (pem : String) :
    (∀ k, importHmacKey P dec s = .ok k → k.extractable = false ∧
      subtleExportJwk P k = .error (.providerError "key is not extractable")) ∧
    ((generateKeyPair fresh alg).privateKey.extractable = true ∧
     (generateKeyPair fresh alg).publicKey.extractable = true) ∧
    (∀ kp, importKeyPairFromPemPrivateKey P ext pem alg = .ok kp →
      kp.privateKey.extractable = true ∧ kp.publicKey.extractable = true) := by
  refine ⟨?_, ⟨rfl, rfl⟩, ?_⟩
  · intro k hk
    obtain ⟨hke, -, -⟩ := importHmacKey_ok_inv hk
    refine ⟨hke, ?_⟩
    rw [subtleExportJwk, hke]
    rfl
  · intro kp h
    obtain ⟨bytes, jwk, hext, hpk, hexp, hpub⟩ :=
      importKeyPairFromPemPrivateKey_ok_inv h
    exact ⟨(subtleImportKey_ok_inv hpk).2.1, (subtleImportKey_ok_inv hpub).2.1⟩

theorem claim_C10_witness :
    (∃ k, importHmacKey acceptAllProvider testDecodeB64 "c2VjcmV0" = .ok k ∧
      k.extractable = false) ∧
    (generateKeyPair 7 .rsa).privateKey.extractable = true ∧
    kpTest.privateKey.extractable = true ∧ kpTest.publicKey.extractable = true := by
  have h1 := (claim_C10 acceptAllProvider testDecodeB64 "c2VjcmV0" 7 .rsa
    testExtract "PEM").1
  have h2 := (claim_C10 acceptAllProvider testDecodeB64 "c2VjcmV0" 7 .rsa
    testExtract "PEM").2.1
  have h3 := (claim_C10 acceptAllProvider testDecodeB64 "c2VjcmV0" 7 .ec
    testExtract "PEM").2.2 kpTest (by decide)
  refine ⟨?_, h2.1, h3⟩
  refine ⟨hmacKeyTest, by decide, ?_⟩
  exact (h1 _ (by decide)).1

end AcmeSpec
